import Mathlib

/-!
Shallow embedding of the `respi` crafting-graph program (src/main.rs).

The record types (`NewItem`, `NewSynthesis`, `NewMorph`), the node type
(`RespiNode`) and the graph-construction functions are translated directly
from the Rust source.  `petgraph::graph::DiGraph` is modelled as a list of
nodes (indices are positions) together with a list of directed edges; edge
weights are always the placeholder `0` in the source and carry no semantics,
so they are omitted.  `petgraph`'s `neighbors_directed(_, Incoming)` yields
incoming neighbours in reverse order of edge insertion (new edges are
prepended to a node's adjacency list), which `incomingNeighbors` mirrors.
The `HashMap` `item_indices` (keyed by item name, later inserts win) is
modelled by `itemIndices`, which returns the index of the last item with a
given name.  Rust panics (`expect`, `HashMap` indexing) and propagated
errors are modelled by `Option`: `none` is an aborted construction.
-/

namespace Respi

/-- Item-number classification of an item row (`enum ItemNumber`). -/
inductive ItemNumber where
  | MaterialNumber (n : Nat)
  | RecipeNumber (n : Nat)
  | None
deriving DecidableEq

/-- A parsed item row (`struct NewItem`). -/
structure NewItem where
  name : String
  fire : Bool
  ice : Bool
  light : Bool
  wind : Bool
  category1 : Option String
  category2 : Option String
  category3 : Option String
  category4 : Option String
  item_number : ItemNumber
deriving DecidableEq

/-- A parsed synthesis row (`struct NewSynthesis`). -/
structure NewSynthesis where
  name : String
  chapter : String
  synthesis_type : String
  ingredient1 : Option String
  ingredient2 : Option String
  ingredient3 : Option String
  ingredient4 : Option String
  add_category1 : Option String
  add_category2 : Option String
  extra_synth_quantity : Option Nat
  effect_spread : Option Nat
deriving DecidableEq

/-- A parsed morph row (`struct NewMorph`). -/
structure NewMorph where
  name : String
  chapter : String
  from_recipe : String
  from_requiring : String
deriving DecidableEq

/-- The present ingredient specifiers, in slot order
(`NewSynthesis::ingredients`: filter `is_some`, then unwrap). -/
def NewSynthesis.ingredients (s : NewSynthesis) : List String :=
  [s.ingredient1, s.ingredient2, s.ingredient3, s.ingredient4].filterMap id

/-- Graph node variants (`enum RespiNode`). -/
inductive RespiNode where
  | Synthesis (chapter synthesis_type : String)
      (add_category1 add_category2 : Option String)
      (extra_synth_quantity effect_spread : Option Nat)
  | Morph
  | Item (name : String) (fire ice light wind : Bool)
      (category1 category2 category3 category4 : Option String)
      (item_number : ItemNumber)
deriving DecidableEq

/-- The `Display` implementation for `RespiNode`: an Item shows its name,
the other variants show a fixed marker. -/
def label : RespiNode → String
  | RespiNode.Synthesis _ _ _ _ _ _ => "Synthesis"
  | RespiNode.Morph => "Morph"
  | RespiNode.Item name _ _ _ _ _ _ _ _ _ => name

/-- Whether a node is an `Item` whose name equals `nm`. -/
def isItemNamed (nm : String) : RespiNode → Bool
  | RespiNode.Item name _ _ _ _ _ _ _ _ _ => name == nm
  | _ => false

/-- Whether a node is a `Synthesis` node. -/
def isSynthesisB : RespiNode → Bool
  | RespiNode.Synthesis _ _ _ _ _ _ => true
  | _ => false

/-- Whether a node is a `Morph` node. -/
def isMorphB : RespiNode → Bool
  | RespiNode.Morph => true
  | _ => false

/-- The ingredient-matching test from `Respi::init`: an ingredient specifier
matches a node iff the node is an `Item` and the specifier equals its name
or any of its four category tags. -/
def matchesSpec (ing : String) : RespiNode → Bool
  | RespiNode.Item name _ _ _ _ c1 c2 c3 c4 _ =>
      [some name, c1, c2, c3, c4].any (fun c => c == some ing)
  | _ => false

/-- The directed graph: nodes indexed by position, edges as index pairs
(edge weights are always `0` in the source and are omitted). -/
structure RespiGraph where
  nodes : List RespiNode
  edges : List (Nat × Nat)
deriving DecidableEq

/-- `Graph::add_node`: appends the node, returns the graph and the new index. -/
def addNode (g : RespiGraph) (n : RespiNode) : RespiGraph × Nat :=
  ({ nodes := g.nodes ++ [n], edges := g.edges }, g.nodes.length)

/-- `Graph::add_edge` (weight `0`). -/
def addEdge (g : RespiGraph) (a b : Nat) : RespiGraph :=
  { nodes := g.nodes, edges := g.edges ++ [(a, b)] }

/-- The node at an index (Rust indexing panics out of range; all indices
used by the program are in range, where the default is irrelevant). -/
def nodeAt (g : RespiGraph) (i : Nat) : RespiNode :=
  g.nodes.getD i RespiNode.Morph

/-- Indices of the nodes matching an ingredient specifier, in index order
(the `node_references().filter(...).map(...)` scan in `Respi::init`). -/
def matchIdxs (ns : List RespiNode) (ing : String) : List Nat :=
  (List.range ns.length).filter (fun i => matchesSpec ing (ns.getD i RespiNode.Morph))

/-- The `item_indices` map lookup: index of the item with a given name.
Later inserts overwrite earlier ones, so the last item with the name wins. -/
def itemIndices (items : List NewItem) (nm : String) : Option Nat :=
  match items with
  | [] => none
  | it :: rest =>
    match itemIndices rest nm with
    | some j => some (j + 1)
    | none => if it.name == nm then some 0 else none

/-- The `RespiNode::Item` built from a `NewItem` in `Respi::init`. -/
def itemNode (it : NewItem) : RespiNode :=
  RespiNode.Item it.name it.fire it.ice it.light it.wind
    it.category1 it.category2 it.category3 it.category4 it.item_number

/-- The `RespiNode::Synthesis` built from a `NewSynthesis` in `Respi::init`. -/
def synthNode (s : NewSynthesis) : RespiNode :=
  RespiNode.Synthesis s.chapter s.synthesis_type s.add_category1 s.add_category2
    s.extra_synth_quantity s.effect_spread

/-- The item-insertion loop of `Respi::init`. -/
def itemFold (g : RespiGraph) : List NewItem → RespiGraph
  | [] => g
  | it :: rest => itemFold (addNode g (itemNode it)).1 rest

/-- Adds one edge `i → k` per listed source index (the inner
`for ingredient_index in ingredients` loop). -/
def addEdgesFrom (g : RespiGraph) (k : Nat) : List Nat → RespiGraph
  | [] => g
  | i :: rest => addEdgesFrom (addEdge g i k) k rest

/-- The `for ingredient in new_synthesis.ingredients()` loop: for each
specifier, wire every matching node into the synthesis node `k`. -/
def ingredientFold (g : RespiGraph) (k : Nat) : List String → RespiGraph
  | [] => g
  | ing :: rest => ingredientFold (addEdgesFrom g k (matchIdxs g.nodes ing)) k rest

/-- One iteration of the synthesis loop of `Respi::init`: add the
`Synthesis` node; if the output item name resolves, wire the output edge
and the ingredient edges, otherwise silently add no edges. -/
def addSynthesis (items : List NewItem) (g : RespiGraph) (s : NewSynthesis) : RespiGraph :=
  let p := addNode g (synthNode s)
  match itemIndices items s.name with
  | none => p.1
  | some itemIdx => ingredientFold (addEdge p.1 p.2 itemIdx) p.2 s.ingredients

/-- The synthesis loop of `Respi::init`. -/
def synthFold (items : List NewItem) (g : RespiGraph) : List NewSynthesis → RespiGraph
  | [] => g
  | s :: rest => synthFold items (addSynthesis items g s) rest

/-- Incoming neighbours of `v`, newest edge first (`petgraph` prepends edges
to each node's adjacency list, so `neighbors_directed(v, Incoming)` iterates
in reverse insertion order). -/
def incomingNeighbors (g : RespiGraph) (v : Nat) : List Nat :=
  ((g.edges.filter (fun e => decide (e.2 = v))).map (fun e => e.1)).reverse

/-- First `k < k0 + fuel`, counting up from `k0`, satisfying `p`. -/
def firstSuch (p : Nat → Bool) : Nat → Nat → Option Nat
  | 0, _ => none
  | fuel + 1, k => if p k then some k else firstSuch p fuel (k + 1)

/-- `Respi::find_item`: the first node index holding an `Item` whose name
equals `item_name` (`node_indices().find`). -/
def findItem (g : RespiGraph) (item_name : String) : Option Nat :=
  firstSuch (fun i => isItemNamed item_name (nodeAt g i)) g.nodes.length 0

/-- One iteration of the morph loop of `Respi::init`.  The `HashMap`
indexings and the two `expect`s panic (abort) on failure, modelled by
`none`: the morph's own name, its `from_requiring` name, the `from_recipe`
item, and a `Synthesis` node among the `from_recipe` item's incoming
neighbours must all resolve. -/
def addMorph (items : List NewItem) (g : RespiGraph) (m : NewMorph) : Option RespiGraph :=
  match itemIndices items m.name with
  | none => none
  | some resultIdx =>
    match itemIndices items m.from_requiring with
    | none => none
    | some requiredIdx =>
      match findItem g m.from_recipe with
      | none => none
      | some fromIdx =>
        match (incomingNeighbors g fromIdx).find? (fun i => isSynthesisB (nodeAt g i)) with
        | none => none
        | some recipeIdx =>
          let p := addNode g RespiNode.Morph
          some (addEdge (addEdge (addEdge p.1 recipeIdx p.2) requiredIdx p.2) p.2 resultIdx)

/-- The morph loop of `Respi::init`; a panic in any iteration aborts. -/
def morphFold (items : List NewItem) (g : RespiGraph) : List NewMorph → Option RespiGraph
  | [] => some g
  | m :: rest =>
    match addMorph items g m with
    | none => none
    | some g2 => morphFold items g2 rest

/-- Graph construction (`Respi::init` after `parse_csv`): insert all item
nodes, then run the synthesis loop, then the morph loop. -/
def buildGraph (items : List NewItem) (synths : List NewSynthesis)
    (morphs : List NewMorph) : Option RespiGraph :=
  morphFold items (synthFold items (itemFold ⟨[], []⟩ items) synths) morphs

/-- Number of edges from `u` to `v` (multi-edges counted). -/
def countEdges (g : RespiGraph) (u v : Nat) : Nat :=
  (g.edges.filter (fun e => decide (e = (u, v)))).length

/-- Out-degree of `u`. -/
def outDegree (g : RespiGraph) (u : Nat) : Nat :=
  (g.edges.filter (fun e => decide (e.1 = u))).length

/-- In-degree of `v`. -/
def inDegree (g : RespiGraph) (v : Nat) : Nat :=
  (g.edges.filter (fun e => decide (e.2 = v))).length

/-- `empty_or_some` from `Respi::parse_csv`. -/
def emptyOrSome (text : String) : Option String :=
  if text.isEmpty then none else some text

/-- Field access `record[i]` (the row length is checked to be 25 before any
access, so the default is never consulted on program inputs). -/
def fieldAt (row : List String) (i : Nat) : String :=
  row.getD i ""

/-- `str::parse::<u8>` modelled on decimal digit strings: the parsed value
when the string is a nonempty digit sequence fitting in `u8`, else a parse
error (which `?` propagates). -/
def parseU8 (s : String) : Option Nat :=
  if s.data ≠ [] ∧ s.data.all (fun c => 48 ≤ c.toNat && c.toNat ≤ 57) then
    let n := s.data.foldl (fun n c => n * 10 + (c.toNat - 48)) 0
    if n < 256 then some n else none
  else none

/-- One row of `Respi::parse_csv`: the item record always produced, the
synthesis record produced when the row carries a recipe number, and up to
two morph records.  Any `u8` parse failure or a row length other than 25
aborts the whole parse (`?` propagation), modelled by `none`. -/
def parseRow (row : List String) : Option (NewItem × List NewSynthesis × List NewMorph) :=
  if row.length ≠ 25 then none
  else
    let name := fieldAt row 0
    let fire := !(fieldAt row 1).isEmpty
    let ice := !(fieldAt row 2).isEmpty
    let light := !(fieldAt row 3).isEmpty
    let wind := !(fieldAt row 4).isEmpty
    let category1 := emptyOrSome (fieldAt row 5)
    let category2 := emptyOrSome (fieldAt row 6)
    let category3 := emptyOrSome (fieldAt row 7)
    let category4 := emptyOrSome (fieldAt row 8)
    let itemNumberOpt : Option ItemNumber :=
      if !(fieldAt row 9).isEmpty then
        (parseU8 (fieldAt row 9)).map ItemNumber.MaterialNumber
      else if !(fieldAt row 10).isEmpty then
        (parseU8 (fieldAt row 10)).map ItemNumber.RecipeNumber
      else some ItemNumber.None
    match itemNumberOpt with
    | none => none
    | some item_number =>
      let item : NewItem :=
        ⟨name, fire, ice, light, wind, category1, category2, category3, category4, item_number⟩
      match item_number with
      | ItemNumber.RecipeNumber _ =>
        let chapter := fieldAt row 11
        let synthesis_type := fieldAt row 12
        let ingredient1 := emptyOrSome (fieldAt row 13)
        let ingredient2 := emptyOrSome (fieldAt row 14)
        let ingredient3 := emptyOrSome (fieldAt row 15)
        let ingredient4 := emptyOrSome (fieldAt row 16)
        let add_category1 := emptyOrSome (fieldAt row 17)
        let add_category2 := emptyOrSome (fieldAt row 18)
        let from_recipe1 := emptyOrSome (fieldAt row 19)
        let from_requiring1 := emptyOrSome (fieldAt row 20)
        let from_recipe2 := emptyOrSome (fieldAt row 21)
        let from_requiring2 := emptyOrSome (fieldAt row 22)
        let esqOpt : Option (Option Nat) :=
          if (fieldAt row 23).isEmpty then some none
          else (parseU8 (fieldAt row 23)).map some
        match esqOpt with
        | none => none
        | some extra_synth_quantity =>
          let esOpt : Option (Option Nat) :=
            if (fieldAt row 24).isEmpty then some none
            else (parseU8 (fieldAt row 24)).map some
          match esOpt with
          | none => none
          | some effect_spread =>
            let synth : NewSynthesis :=
              ⟨name, chapter, synthesis_type, ingredient1, ingredient2, ingredient3,
               ingredient4, add_category1, add_category2, extra_synth_quantity, effect_spread⟩
            let morphs1 : List NewMorph :=
              match from_recipe1, from_requiring1 with
              | some fr, some fq => [⟨name, chapter, fr, fq⟩]
              | _, _ => []
            let morphs2 : List NewMorph :=
              match from_recipe2, from_requiring2 with
              | some fr, some fq => [⟨name, chapter, fr, fq⟩]
              | _, _ => []
            some (item, [synth], morphs1 ++ morphs2)
      | _ => some (item, [], [])

/-- `Respi::parse_csv` over already-split rows: records accumulate in row
order; the first bad row aborts the parse. -/
def parseCsv : List (List String) → Option (List NewItem × List NewSynthesis × List NewMorph)
  | [] => some ([], [], [])
  | row :: rest =>
    match parseRow row with
    | none => none
    | some (it, ss, ms) =>
      match parseCsv rest with
      | none => none
      | some (its, sss, mss) => some (it :: its, ss ++ sss, ms ++ mss)

/-- The argument-scanning loop of `main` (over the arguments after the
program name): `"respi"` is ignored, `-i`/`--items` takes the next argument
as the dataset path (printing help when none follows), anything else prints
help; scanning always continues to the end. -/
def parseArgsLoop : List String → String → Bool → String × Bool
  | [], path, helped => (path, helped)
  | a :: rest, path, helped =>
    if a == "respi" then parseArgsLoop rest path helped
    else if a == "-i" || a == "--items" then
      match rest with
      | f :: rest2 => parseArgsLoop rest2 f helped
      | [] => (path, true)
    else parseArgsLoop rest path true

/-- `main` up to the `Respi::init` call: the dataset path `init` is invoked
with (it is always invoked, with the empty string when no path was given),
and whether `print_help` ran.  `some path` records that construction was
attempted. -/
def mainModel (args : List String) : Option String × Bool :=
  let r := parseArgsLoop args "" false
  (some r.1, r.2)

/-- Successors of `u` along stored edge directions. -/
def succs (g : RespiGraph) (u : Nat) : List Nat :=
  (g.edges.filter (fun e => decide (e.1 = u))).map (fun e => e.2)

/-- One expansion step of the reachable ball. -/
def stepBall (g : RespiGraph) (S : List Nat) : List Nat :=
  S ++ S.flatMap (succs g)

/-- Nodes reachable from `s` in at most `n` directed steps. -/
def ball (g : RespiGraph) (s : Nat) : Nat → List Nat
  | 0 => [s]
  | n + 1 => stepBall g (ball g s n)

/-- Every ball lives inside `{s} ∪ edge targets`; its cardinality bounds the
number of expansion steps needed to saturate reachability. -/
def reachBoundK (g : RespiGraph) (s : Nat) : Nat :=
  (s :: g.edges.map (fun e => e.2)).toFinset.card

/-- The least number of steps reaching `t` from `s`, searched up to the
saturation bound; `none` when `t` is unreachable. -/
def distSearch (g : RespiGraph) (s t : Nat) : Option Nat :=
  firstSuch (fun n => decide (t ∈ ball g s n)) (reachBoundK g s + 1) 0

/-- A predecessor of `t` inside a frontier list. -/
def pickPred (g : RespiGraph) (S : List Nat) (t : Nat) : Option Nat :=
  S.find? (fun u => decide ((u, t) ∈ g.edges))

/-- Backward extraction of a path of exactly `n` edges from `s` to `t`,
stepping through predecessors in successive balls. -/
def extractPath (g : RespiGraph) (s : Nat) : Nat → Nat → Option (List Nat)
  | 0, t => some [t]
  | n + 1, t =>
    match pickPred g (ball g s n) t with
    | none => none
    | some u => (extractPath g s n u).map (fun q => q ++ [t])

/-- Modelled from the spec: the path search of `Respi::run` is
`petgraph::algo::astar` — an external library routine — called with every
edge cost `1` and a zero heuristic, which the spec states is the unweighted
shortest path from start to goal along stored edge directions, equivalent
to breadth-first search.  Returns the node sequence of a minimum-edge-count
directed path, or `none` when the goal is unreachable. -/
def astarModel (g : RespiGraph) (s t : Nat) : Option (List Nat) :=
  match distSearch g s t with
  | none => none
  | some n => extractPath g s n t

/-- A node list is a directed path from `s` to `t`: nonempty, starts at
`s`, ends at `t`, and consecutive entries are stored edges. -/
def pathOk (g : RespiGraph) (p : List Nat) (s t : Nat) : Prop :=
  p.head? = some s ∧ p.getLast? = some t ∧
    List.Chain' (fun u v => (u, v) ∈ g.edges) p

/-- A directed walk of a given number of edges. -/
inductive Walk (g : RespiGraph) : Nat → Nat → Nat → Prop where
  | nil (u : Nat) : Walk g u u 0
  | cons {u v w n} : (u, v) ∈ g.edges → Walk g v w n → Walk g u w (n + 1)

/-- Outcome of one query cycle of `Respi::run`. -/
inductive QueryResult where
  | notFound
  | noPath
  | found (p : List Nat)
deriving DecidableEq

/-- One query cycle of `Respi::run` on given start/goal names: a name not
resolving to an Item is reported (and re-prompted, never fatal); with both
resolved the search either finds a path or reports no path. -/
def runQuery (g : RespiGraph) (startName goalName : String) : QueryResult :=
  match findItem g startName, findItem g goalName with
  | some s, some t =>
    match astarModel g s t with
    | some p => QueryResult.found p
    | none => QueryResult.noPath
  | _, _ => QueryResult.notFound

/-- The per-node output of the path-printing loop in `Respi::run`: the
node's label, then `" -> "` unless the node is an `Item` and the goal node
is an `Item` with the same name (a non-`Item` goal also suppresses the
separator after an `Item`). -/
def renderNode (g : RespiGraph) (goalIdx : Nat) (ni : Nat) : String :=
  label (nodeAt g ni) ++
    match nodeAt g ni with
    | RespiNode.Item name _ _ _ _ _ _ _ _ _ =>
      match nodeAt g goalIdx with
      | RespiNode.Item gname _ _ _ _ _ _ _ _ _ => if name ≠ gname then " -> " else ""
      | _ => ""
    | _ => " -> "

/-- The whole rendered path: the loop's prints, concatenated. -/
def renderPath (g : RespiGraph) (goalIdx : Nat) : List Nat → String
  | [] => ""
  | ni :: rest => renderNode g goalIdx ni ++ renderPath g goalIdx rest

/-- The spec's rendering rule, stated in its words: labels joined by the
separator between consecutive nodes, no trailing separator after the last. -/
def joinSep : List String → String
  | [] => ""
  | [x] => x
  | x :: y :: rest => x ++ " -> " ++ joinSep (y :: rest)

/-- Ingredient edges contributed into synthesis node `k` by a specifier
list, matching against the node list `ns`. -/
def ingContrib (ns : List RespiNode) (k : Nat) (ings : List String) : List (Nat × Nat) :=
  ings.flatMap (fun ing => (matchIdxs ns ing).map (fun i => (i, k)))

/-- All edges contributed by one synthesis record sitting at node index `k`. -/
def synthContrib (items : List NewItem) (ns : List RespiNode) (k : Nat)
    (s : NewSynthesis) : List (Nat × Nat) :=
  match itemIndices items s.name with
  | none => []
  | some itemIdx => (k, itemIdx) :: ingContrib ns k s.ingredients

/-- Edges contributed by a synthesis list whose nodes start at index `b`. -/
def synthEdgesFrom (items : List NewItem) (ns : List RespiNode) :
    Nat → List NewSynthesis → List (Nat × Nat)
  | _, [] => []
  | b, s :: rest => synthContrib items ns b s ++ synthEdgesFrom items ns (b + 1) rest

/-- The three node indices a morph record resolves against the pre-morph
graph `g1`: the base `Synthesis`, the required item, the result item. -/
def morphResolve (items : List NewItem) (g1 : RespiGraph) (m : NewMorph) :
    Option (Nat × Nat × Nat) :=
  match itemIndices items m.name with
  | none => none
  | some resultIdx =>
    match itemIndices items m.from_requiring with
    | none => none
    | some requiredIdx =>
      match findItem g1 m.from_recipe with
      | none => none
      | some fromIdx =>
        match (incomingNeighbors g1 fromIdx).find? (fun i => isSynthesisB (nodeAt g1 i)) with
        | none => none
        | some recipeIdx => some (recipeIdx, requiredIdx, resultIdx)

/-- Edges contributed by a morph list whose nodes start at index `base`,
resolved against the pre-morph graph `g1`; `none` when any morph fails. -/
def morphEdgesFrom (items : List NewItem) (g1 : RespiGraph) :
    Nat → List NewMorph → Option (List (Nat × Nat))
  | _, [] => some []
  | base, m :: rest =>
    match morphResolve items g1 m with
    | none => none
    | some (r, q, v) =>
      match morphEdgesFrom items g1 (base + 1) rest with
      | none => none
      | some es => some ((r, base) :: (q, base) :: (base, v) :: es)

/-! ### Basic lemmas about the lookup helpers -/

theorem itemIndices_lt {items : List NewItem} {nm : String} {j : Nat}
    (h : itemIndices items nm = some j) : j < items.length := by
  induction items generalizing j with
  | nil => simp [itemIndices] at h
  | cons it rest ih =>
    rw [itemIndices] at h
    split at h
    next j' hr =>
      cases h
      have := ih hr
      simp only [List.length_cons]
      omega
    next =>
      split at h
      next => cases h; simp
      next => cases h

theorem itemIndices_get {items : List NewItem} {nm : String} {j : Nat}
    (h : itemIndices items nm = some j) :
    ∃ it, items[j]? = some it ∧ it.name = nm := by
  induction items generalizing j with
  | nil => simp [itemIndices] at h
  | cons it rest ih =>
    rw [itemIndices] at h
    split at h
    next j' hr =>
      cases h
      rcases ih hr with ⟨it', h1, h2⟩
      exact ⟨it', by simpa using h1, h2⟩
    next =>
      split at h
      next hn => cases h; exact ⟨it, by simp, by simpa using hn⟩
      next => cases h

theorem itemIndices_isSome_iff {items : List NewItem} {nm : String} :
    (itemIndices items nm).isSome = true ↔ ∃ it ∈ items, it.name = nm := by
  induction items with
  | nil => simp [itemIndices]
  | cons it rest ih =>
    rw [itemIndices]
    cases hr : itemIndices rest nm with
    | some j' =>
      simp only [Option.isSome_some, true_iff]
      rcases ih.mp (by rw [hr]; rfl) with ⟨it', h1, h2⟩
      exact ⟨it', List.mem_cons_of_mem _ h1, h2⟩
    | none =>
      rw [hr] at ih
      simp only [Option.isSome_none, Bool.false_eq_true, false_iff] at ih
      push_neg at ih
      constructor
      · intro hIs
        by_cases hn : (it.name == nm) = true
        · exact ⟨it, List.mem_cons_self it rest, by simpa using hn⟩
        · simp [hn] at hIs
      · rintro ⟨it', hmem, hname⟩
        rcases List.mem_cons.mp hmem with rfl | hmem'
        · simp [hname]
        · exact absurd hname (ih it' hmem')

theorem firstSuch_some {p : Nat → Bool} :
    ∀ {fuel k n : Nat}, firstSuch p fuel k = some n →
      p n = true ∧ k ≤ n ∧ n < k + fuel ∧ ∀ m, k ≤ m → m < n → p m = false := by
  intro fuel
  induction fuel with
  | zero => intro k n h; simp [firstSuch] at h
  | succ fuel ih =>
    intro k n h
    rw [firstSuch] at h
    split at h
    next hp =>
      cases h
      exact ⟨hp, Nat.le_refl _, by omega, fun m h1 h2 => absurd h1 (by omega)⟩
    next hp =>
      rcases ih h with ⟨h1, h2, h3, h4⟩
      refine ⟨h1, by omega, by omega, fun m hm1 hm2 => ?_⟩
      rcases Nat.eq_or_lt_of_le hm1 with rfl | hlt
      · simpa using hp
      · exact h4 m hlt hm2

theorem firstSuch_eq_none {p : Nat → Bool} :
    ∀ {fuel k : Nat}, firstSuch p fuel k = none →
      ∀ m, k ≤ m → m < k + fuel → p m = false := by
  intro fuel
  induction fuel with
  | zero => intro k _ m h1 h2; omega
  | succ fuel ih =>
    intro k h m h1 h2
    rw [firstSuch] at h
    split at h
    next hp => cases h
    next hp =>
      rcases Nat.eq_or_lt_of_le h1 with rfl | hlt
      · simpa using hp
      · exact ih h m hlt (by omega)

theorem firstSuch_ne_none {p : Nat → Bool} :
    ∀ {fuel k n : Nat}, k ≤ n → n < k + fuel → p n = true →
      firstSuch p fuel k ≠ none := by
  intro fuel k n h1 h2 h3 hnone
  exact absurd (firstSuch_eq_none hnone n h1 h2) (by simp [h3])

/-! ### Matching-scan lemmas -/

theorem mem_matchIdxs {ns : List RespiNode} {ing : String} {i : Nat} :
    i ∈ matchIdxs ns ing ↔
      i < ns.length ∧ matchesSpec ing (ns.getD i RespiNode.Morph) = true := by
  simp [matchIdxs, List.mem_filter, List.mem_range]

theorem matchesSpec_synthNode (ing : String) (s : NewSynthesis) :
    matchesSpec ing (synthNode s) = false := rfl

theorem matchesSpec_morph (ing : String) : matchesSpec ing RespiNode.Morph = false := rfl

theorem matchIdxs_append_eq {ns ms : List RespiNode} {ing : String}
    (h : ∀ n ∈ ms, matchesSpec ing n = false) :
    matchIdxs (ns ++ ms) ing = matchIdxs ns ing := by
  unfold matchIdxs
  rw [List.length_append, List.range_add, List.filter_append]
  have h2 : ∀ i, (ns ++ ms).getD i RespiNode.Morph
      = if i < ns.length then ns.getD i RespiNode.Morph else ms.getD (i - ns.length) RespiNode.Morph := by
    intro i
    by_cases hi : i < ns.length
    · rw [List.getD_append _ _ _ _ hi, if_pos hi]
    · rw [List.getD_append_right _ _ _ _ (by omega), if_neg hi]
  have hleft : (List.range ns.length).filter
        (fun i => matchesSpec ing ((ns ++ ms).getD i RespiNode.Morph))
      = (List.range ns.length).filter
        (fun i => matchesSpec ing (ns.getD i RespiNode.Morph)) := by
    apply List.filter_congr
    intro i hi
    rw [h2 i, if_pos (List.mem_range.mp hi)]
  have hright : ((List.range ms.length).map (ns.length + ·)).filter
        (fun i => matchesSpec ing ((ns ++ ms).getD i RespiNode.Morph)) = [] := by
    rw [List.filter_eq_nil_iff]
    intro i hi
    rcases List.mem_map.mp hi with ⟨j, hj, rfl⟩
    rw [h2 (ns.length + j), if_neg (by omega), Nat.add_sub_cancel_left]
    have hjm : j < ms.length := List.mem_range.mp hj
    have hmem : ms.getD j RespiNode.Morph ∈ ms := by
      rw [List.getD_eq_getElem?_getD, List.getElem?_eq_getElem hjm]
      exact List.getElem_mem hjm
    simpa using h _ hmem
  rw [hleft, hright, List.append_nil]

/-! ### Closed forms for the construction folds -/

theorem itemFold_eq (es : List (Nat × Nat)) :
    ∀ (items : List NewItem) (ns : List RespiNode),
      itemFold ⟨ns, es⟩ items = ⟨ns ++ items.map itemNode, es⟩ := by
  intro items
  induction items with
  | nil => intro ns; simp [itemFold]
  | cons it rest ih =>
    intro ns
    rw [itemFold]
    show itemFold ⟨ns ++ [itemNode it], es⟩ rest = _
    rw [ih]
    simp

theorem addEdgesFrom_eq (k : Nat) :
    ∀ (l : List Nat) (ns : List RespiNode) (es : List (Nat × Nat)),
      addEdgesFrom ⟨ns, es⟩ k l = ⟨ns, es ++ l.map (fun i => (i, k))⟩ := by
  intro l
  induction l with
  | nil => intro ns es; simp [addEdgesFrom]
  | cons i rest ih =>
    intro ns es
    rw [addEdgesFrom]
    show addEdgesFrom ⟨ns, es ++ [(i, k)]⟩ k rest = _
    rw [ih]
    simp

theorem ingredientFold_eq (k : Nat) :
    ∀ (ings : List String) (ns : List RespiNode) (es : List (Nat × Nat)),
      ingredientFold ⟨ns, es⟩ k ings = ⟨ns, es ++ ingContrib ns k ings⟩ := by
  intro ings
  induction ings with
  | nil => intro ns es; simp [ingredientFold, ingContrib]
  | cons ing rest ih =>
    intro ns es
    rw [ingredientFold]
    show ingredientFold (addEdgesFrom ⟨ns, es⟩ k (matchIdxs ns ing)) k rest = _
    rw [addEdgesFrom_eq, ih]
    simp [ingContrib, List.flatMap_cons]

theorem ingContrib_append_eq {ns ms : List RespiNode}
    (h : ∀ n ∈ ms, ∀ ing, matchesSpec ing n = false) (k : Nat) (ings : List String) :
    ingContrib (ns ++ ms) k ings = ingContrib ns k ings := by
  induction ings with
  | nil => rfl
  | cons ing rest ih =>
    simp only [ingContrib, List.flatMap_cons] at *
    rw [matchIdxs_append_eq (fun n hn => h n hn ing), ih]

theorem synthContrib_append_eq {ns ms : List RespiNode}
    (h : ∀ n ∈ ms, ∀ ing, matchesSpec ing n = false) (items : List NewItem) (k : Nat)
    (s : NewSynthesis) :
    synthContrib items (ns ++ ms) k s = synthContrib items ns k s := by
  rw [synthContrib, synthContrib]
  cases itemIndices items s.name with
  | none => rfl
  | some itemIdx => rw [ingContrib_append_eq h]

theorem synthEdgesFrom_append_eq {ns ms : List RespiNode}
    (h : ∀ n ∈ ms, ∀ ing, matchesSpec ing n = false) (items : List NewItem) :
    ∀ (ss : List NewSynthesis) (b : Nat),
      synthEdgesFrom items (ns ++ ms) b ss = synthEdgesFrom items ns b ss := by
  intro ss
  induction ss with
  | nil => intro b; rfl
  | cons s rest ih =>
    intro b
    rw [synthEdgesFrom, synthEdgesFrom, synthContrib_append_eq h, ih]

theorem addSynthesis_eq (items : List NewItem) (ns : List RespiNode)
    (es : List (Nat × Nat)) (s : NewSynthesis) :
    addSynthesis items ⟨ns, es⟩ s
      = ⟨ns ++ [synthNode s], es ++ synthContrib items ns ns.length s⟩ := by
  rw [addSynthesis, synthContrib]
  cases hi : itemIndices items s.name with
  | none => simp [addNode]
  | some itemIdx =>
    show ingredientFold (addEdge ⟨ns ++ [synthNode s], es⟩ ns.length itemIdx)
        ns.length s.ingredients = _
    rw [addEdge]
    show ingredientFold ⟨ns ++ [synthNode s], es ++ [(ns.length, itemIdx)]⟩
        ns.length s.ingredients = _
    rw [ingredientFold_eq]
    rw [ingContrib_append_eq (fun n hn ing => by rcases List.mem_singleton.mp hn with rfl; rfl)]
    simp

theorem synthFold_eq (items : List NewItem) :
    ∀ (ss : List NewSynthesis) (ns : List RespiNode) (es : List (Nat × Nat)),
      synthFold items ⟨ns, es⟩ ss
        = ⟨ns ++ ss.map synthNode, es ++ synthEdgesFrom items ns ns.length ss⟩ := by
  intro ss
  induction ss with
  | nil => intro ns es; simp [synthFold, synthEdgesFrom]
  | cons s rest ih =>
    intro ns es
    rw [synthFold, addSynthesis_eq, ih]
    rw [synthEdgesFrom_append_eq (fun n hn ing => by rcases List.mem_singleton.mp hn with rfl; rfl) items rest]
    rw [synthEdgesFrom]
    simp [List.append_assoc]

/-- The graph at the end of the synthesis phase of `Respi::init`. -/
def preMorphGraph (items : List NewItem) (synths : List NewSynthesis) : RespiGraph :=
  ⟨items.map itemNode ++ synths.map synthNode,
   synthEdgesFrom items (items.map itemNode) items.length synths⟩

theorem buildGraph_eq (items : List NewItem) (synths : List NewSynthesis)
    (morphs : List NewMorph) :
    buildGraph items synths morphs = morphFold items (preMorphGraph items synths) morphs := by
  rw [buildGraph, itemFold_eq, synthFold_eq, preMorphGraph]
  simp

/-! ### Generic search-helper lemmas -/

theorem firstSuch_all_false {p : Nat → Bool} :
    ∀ {fuel k : Nat}, (∀ m, k ≤ m → m < k + fuel → p m = false) →
      firstSuch p fuel k = none := by
  intro fuel
  induction fuel with
  | zero => intro k _; rfl
  | succ fuel ih =>
    intro k h
    rw [firstSuch]
    rw [h k (Nat.le_refl _) (by omega)]
    exact ih (fun m h1 h2 => h m (by omega) (by omega))

theorem firstSuch_fuel_ext {p : Nat → Bool} :
    ∀ {fuel extra k : Nat},
      (∀ m, k + fuel ≤ m → m < k + fuel + extra → p m = false) →
      firstSuch p (fuel + extra) k = firstSuch p fuel k := by
  intro fuel
  induction fuel with
  | zero =>
    intro extra k h
    rw [Nat.zero_add]
    exact firstSuch_all_false (fun m h1 h2 => h m (by omega) (by omega))
  | succ fuel ih =>
    intro extra k h
    have harith : fuel + 1 + extra = (fuel + extra) + 1 := by omega
    rw [harith, firstSuch, firstSuch]
    by_cases hp : p k = true
    · rw [hp]; simp
    · rw [Bool.not_eq_true] at hp
      rw [hp]
      simp only [Bool.false_eq_true, if_false]
      exact ih (fun m h1 h2 => h m (by omega) (by omega))

theorem firstSuch_congr {p q : Nat → Bool} :
    ∀ {fuel k : Nat}, (∀ m, k ≤ m → m < k + fuel → p m = q m) →
      firstSuch p fuel k = firstSuch q fuel k := by
  intro fuel
  induction fuel with
  | zero => intro k _; rfl
  | succ fuel ih =>
    intro k h
    rw [firstSuch, firstSuch, h k (Nat.le_refl _) (by omega)]
    by_cases hq : q k = true
    · rw [hq]; simp
    · rw [Bool.not_eq_true] at hq
      rw [hq]
      simp only [Bool.false_eq_true, if_false]
      exact ih (fun m h1 h2 => h m (by omega) (by omega))

theorem find?_append_of_none {α : Type} {p : α → Bool} {l1 l2 : List α}
    (h : ∀ x ∈ l1, p x = false) : (l1 ++ l2).find? p = l2.find? p := by
  induction l1 with
  | nil => rfl
  | cons a rest ih =>
    rw [List.cons_append, List.find?]
    rw [h a (List.mem_cons_self a rest)]
    exact ih (fun x hx => h x (List.mem_cons_of_mem a hx))

theorem find?_congr_pred {α : Type} {p q : α → Bool} {l : List α}
    (h : ∀ x ∈ l, p x = q x) : l.find? p = l.find? q := by
  induction l with
  | nil => rfl
  | cons a rest ih =>
    rw [List.find?, List.find?, h a (List.mem_cons_self a rest)]
    by_cases hq : q a = true
    · rw [hq]
    · rw [Bool.not_eq_true] at hq
      rw [hq]
      simp only
      exact ih (fun x hx => h x (List.mem_cons_of_mem a hx))

/-! ### Lemmas about `findItem`, `nodeAt` and `incomingNeighbors` -/

theorem findItem_spec {g : RespiGraph} {nm : String} {i : Nat} (h : findItem g nm = some i) :
    i < g.nodes.length ∧ isItemNamed nm (nodeAt g i) = true ∧
      ∀ j, j < i → isItemNamed nm (nodeAt g j) = false := by
  rcases firstSuch_some h with ⟨h1, _, h3, h4⟩
  exact ⟨by omega, h1, fun j hj => h4 j (Nat.zero_le _) hj⟩

theorem findItem_eq_none {g : RespiGraph} {nm : String} (h : findItem g nm = none) :
    ∀ j, j < g.nodes.length → isItemNamed nm (nodeAt g j) = false :=
  fun j hj => firstSuch_eq_none h j (Nat.zero_le _) (by omega)

theorem replicate_getD_morph (j i : Nat) :
    (List.replicate j RespiNode.Morph).getD i RespiNode.Morph = RespiNode.Morph := by
  induction j generalizing i with
  | zero => rfl
  | succ j ih =>
    cases i with
    | zero => rfl
    | succ i => rw [List.replicate_succ, List.getD_cons_succ]; exact ih i

theorem nodeAt_append_left {ns ms : List RespiNode} {es es' : List (Nat × Nat)} {i : Nat}
    (h : i < ns.length) : nodeAt ⟨ns ++ ms, es⟩ i = nodeAt ⟨ns, es'⟩ i := by
  unfold nodeAt
  exact List.getD_append _ _ _ _ h

theorem nodeAt_append_morphs {ns : List RespiNode} {es : List (Nat × Nat)} {i j : Nat}
    (h : ns.length ≤ i) :
    nodeAt ⟨ns ++ List.replicate j RespiNode.Morph, es⟩ i = RespiNode.Morph := by
  unfold nodeAt
  rw [List.getD_append_right _ _ _ _ h]
  exact replicate_getD_morph j _

theorem findItem_morph_ext (ns : List RespiNode) (es es2 : List (Nat × Nat)) (j : Nat)
    (nm : String) :
    findItem ⟨ns ++ List.replicate j RespiNode.Morph, es⟩ nm = findItem ⟨ns, es2⟩ nm := by
  unfold findItem
  show firstSuch _ (ns ++ List.replicate j RespiNode.Morph).length 0 = firstSuch _ ns.length 0
  have hlen : (ns ++ List.replicate j RespiNode.Morph).length = ns.length + j := by simp
  rw [hlen]
  rw [@firstSuch_fuel_ext (fun i =>
      isItemNamed nm (nodeAt ⟨ns ++ List.replicate j RespiNode.Morph, es⟩ i))
    ns.length j 0
    (fun m h1 h2 => by
      show isItemNamed nm (nodeAt ⟨ns ++ List.replicate j RespiNode.Morph, es⟩ m) = false
      rw [nodeAt_append_morphs (by omega)]
      rfl)]
  exact firstSuch_congr (fun m h1 h2 => by
    show isItemNamed nm (nodeAt ⟨ns ++ List.replicate j RespiNode.Morph, es⟩ m)
        = isItemNamed nm (nodeAt ⟨ns, es2⟩ m)
    rw [@nodeAt_append_left ns (List.replicate j RespiNode.Morph) es es2 m (by omega)])

theorem mem_incomingNeighbors {g : RespiGraph} {v x : Nat} :
    x ∈ incomingNeighbors g v ↔ (x, v) ∈ g.edges := by
  unfold incomingNeighbors
  rw [List.mem_reverse]
  constructor
  · intro h
    rcases List.mem_map.mp h with ⟨e, he, rfl⟩
    rcases List.mem_filter.mp he with ⟨he1, he2⟩
    have : e.2 = v := by simpa using he2
    have : e = (e.1, v) := by rw [← this]
    rw [← this]
    exact he1
  · intro h
    exact List.mem_map.mpr ⟨(x, v), List.mem_filter.mpr ⟨h, by simp⟩, rfl⟩

theorem incomingNeighbors_append (es es' : List (Nat × Nat)) (ns : List RespiNode) (v : Nat) :
    incomingNeighbors ⟨ns, es ++ es'⟩ v
      = incomingNeighbors ⟨ns, es'⟩ v ++ incomingNeighbors ⟨ns, es⟩ v := by
  unfold incomingNeighbors
  rw [List.filter_append, List.map_append, List.reverse_append]

/-! ### The morph phase, in closed form -/

theorem morphResolve_some {items : List NewItem} {g1 : RespiGraph} {m : NewMorph}
    {r q v : Nat} (h : morphResolve items g1 m = some (r, q, v)) :
    itemIndices items m.name = some v ∧ itemIndices items m.from_requiring = some q ∧
      ∃ fromIdx, findItem g1 m.from_recipe = some fromIdx ∧
        (incomingNeighbors g1 fromIdx).find?
          (fun i => isSynthesisB (nodeAt g1 i)) = some r := by
  unfold morphResolve at h
  split at h
  next => cases h
  next resIdx hres =>
    split at h
    next => cases h
    next reqIdx hreq =>
      split at h
      next => cases h
      next fromIdx hfrom =>
        split at h
        next => cases h
        next recIdx hrec =>
          cases h
          exact ⟨hres, hreq, fromIdx, hfrom, hrec⟩

theorem addMorph_ext (items : List NewItem) (ns : List RespiNode)
    (es0 es : List (Nat × Nat)) (j : Nat) (m : NewMorph)
    (hsrc : ∀ e ∈ es0, e.1 < ns.length)
    (hextra : ∀ e ∈ es, e.2 < ns.length → ns.length ≤ e.1)
    (hlen : items.length ≤ ns.length) :
    addMorph items ⟨ns ++ List.replicate j RespiNode.Morph, es0 ++ es⟩ m
      = match morphResolve items ⟨ns, es0⟩ m with
        | none => none
        | some (r, q, v) => some ⟨ns ++ List.replicate (j + 1) RespiNode.Morph,
            es0 ++ (es ++ [(r, ns.length + j), (q, ns.length + j), (ns.length + j, v)])⟩ := by
  have hfind : ∀ nm, findItem ⟨ns ++ List.replicate j RespiNode.Morph, es0 ++ es⟩ nm
      = findItem ⟨ns, es0⟩ nm := fun nm => findItem_morph_ext ns _ es0 j nm
  unfold addMorph morphResolve
  rw [hfind m.from_recipe]
  cases hres : itemIndices items m.name with
  | none => rfl
  | some resIdx =>
    cases hreq : itemIndices items m.from_requiring with
    | none => rfl
    | some reqIdx =>
      cases hfrom : findItem ⟨ns, es0⟩ m.from_recipe with
      | none => rfl
      | some fromIdx =>
        have hfrom_lt : fromIdx < ns.length := by
          have := (findItem_spec hfrom).1
          simpa using this
        have hinc : (incomingNeighbors ⟨ns ++ List.replicate j RespiNode.Morph, es0 ++ es⟩
              fromIdx).find?
              (fun i => isSynthesisB (nodeAt ⟨ns ++ List.replicate j RespiNode.Morph,
                es0 ++ es⟩ i))
            = (incomingNeighbors ⟨ns, es0⟩ fromIdx).find?
              (fun i => isSynthesisB (nodeAt ⟨ns, es0⟩ i)) := by
          have hnodes : incomingNeighbors ⟨ns ++ List.replicate j RespiNode.Morph, es0 ++ es⟩
              fromIdx = incomingNeighbors ⟨ns, es0 ++ es⟩ fromIdx := rfl
          rw [hnodes, incomingNeighbors_append]
          rw [find?_append_of_none (fun x hx => by
            have hx2 := mem_incomingNeighbors.mp hx
            have hge : ns.length ≤ x := hextra (x, fromIdx) hx2 hfrom_lt
            rw [nodeAt_append_morphs hge]
            rfl)]
          apply find?_congr_pred
          intro x hx
          have hx2 := mem_incomingNeighbors.mp hx
          have hxlt : x < ns.length := hsrc (x, fromIdx) hx2
          rw [@nodeAt_append_left ns (List.replicate j RespiNode.Morph) (es0 ++ es) es0 x hxlt]
        dsimp only
        rw [hinc]
        cases hrec : (incomingNeighbors ⟨ns, es0⟩ fromIdx).find?
            (fun i => isSynthesisB (nodeAt ⟨ns, es0⟩ i)) with
        | none => rfl
        | some recIdx =>
          dsimp only
          have hmi : (ns ++ List.replicate j RespiNode.Morph).length = ns.length + j := by simp
          unfold addNode addEdge
          simp only [hmi]
          congr 1
          rw [List.append_assoc, ← List.replicate_succ' ]
          simp [List.append_assoc]

theorem morphFold_ext (items : List NewItem) (ns : List RespiNode) (es0 : List (Nat × Nat))
    (hsrc : ∀ e ∈ es0, e.1 < ns.length) (hlen : items.length ≤ ns.length) :
    ∀ (morphs : List NewMorph) (j : Nat) (es : List (Nat × Nat)),
      (∀ e ∈ es, e.2 < ns.length → ns.length ≤ e.1) →
      morphFold items ⟨ns ++ List.replicate j RespiNode.Morph, es0 ++ es⟩ morphs
        = match morphEdgesFrom items ⟨ns, es0⟩ (ns.length + j) morphs with
          | none => none
          | some mes => some ⟨ns ++ List.replicate (j + morphs.length) RespiNode.Morph,
              es0 ++ (es ++ mes)⟩ := by
  intro morphs
  induction morphs with
  | nil =>
    intro j es hextra
    rw [morphFold, morphEdgesFrom]
    simp
  | cons m rest ih =>
    intro j es hextra
    rw [morphFold, addMorph_ext items ns es0 es j m hsrc hextra hlen, morphEdgesFrom]
    cases hres : morphResolve items ⟨ns, es0⟩ m with
    | none => rfl
    | some rqv =>
      obtain ⟨r, q, v⟩ := rqv
      dsimp only
      have hv : itemIndices items m.name = some v := (morphResolve_some hres).1
      have hvlt : v < ns.length := by
        have := itemIndices_lt hv
        omega
      have hextra' : ∀ e ∈ es ++ [(r, ns.length + j), (q, ns.length + j), (ns.length + j, v)],
          e.2 < ns.length → ns.length ≤ e.1 := by
        intro e he h2
        rcases List.mem_append.mp he with h1 | h1
        · exact hextra e h1 h2
        · simp only [List.mem_cons, List.not_mem_nil, or_false] at h1
          rcases h1 with rfl | rfl | rfl
          · dsimp only at h2; omega
          · dsimp only at h2; omega
          · (try dsimp only); omega
      rw [ih (j + 1) _ hextra']
      have harith : ns.length + (j + 1) = ns.length + j + 1 := by omega
      rw [harith]
      cases morphEdgesFrom items ⟨ns, es0⟩ (ns.length + j + 1) rest with
      | none => rfl
      | some mes =>
        have harith2 : j + 1 + rest.length = j + (rest.length + 1) := by omega
        rw [harith2]
        simp [List.append_assoc]

/-! ### Shapes of the contributed edges, and the final graph -/

theorem synthEdgesFrom_shape (items : List NewItem) (ns : List RespiNode)
    (hlen : items.length ≤ ns.length) :
    ∀ (ss : List NewSynthesis) (b : Nat), ∀ e ∈ synthEdgesFrom items ns b ss,
      (e.2 < ns.length ∧ b ≤ e.1 ∧ e.1 < b + ss.length) ∨
      (e.1 < ns.length ∧ b ≤ e.2 ∧ e.2 < b + ss.length) := by
  intro ss
  induction ss with
  | nil => intro b e he; rw [synthEdgesFrom] at he; cases he
  | cons s rest ih =>
    intro b e he
    have hL : (s :: rest).length = rest.length + 1 := rfl
    rw [synthEdgesFrom] at he
    rcases List.mem_append.mp he with h1 | h2
    · rw [synthContrib] at h1
      cases hi : itemIndices items s.name with
      | none => rw [hi] at h1; cases h1
      | some idx =>
        rw [hi] at h1
        have hidx : idx < items.length := itemIndices_lt hi
        rcases List.mem_cons.mp h1 with rfl | h3
        · left
          refine ⟨by (try dsimp only); omega, by (try dsimp only); omega, by (try dsimp only); omega⟩
        · rcases List.mem_flatMap.mp h3 with ⟨ing, _, h4⟩
          rcases List.mem_map.mp h4 with ⟨i, hi2, rfl⟩
          have : i < ns.length := (mem_matchIdxs.mp hi2).1
          right
          refine ⟨by (try dsimp only); omega, by (try dsimp only); omega, by (try dsimp only); omega⟩
    · rcases ih (b + 1) e h2 with ⟨a1, a2, a3⟩ | ⟨a1, a2, a3⟩
      · left; refine ⟨a1, by omega, by omega⟩
      · right; refine ⟨a1, by omega, by omega⟩

theorem morphEdgesFrom_shape (items : List NewItem) (g1 : RespiGraph)
    (hsrc : ∀ e ∈ g1.edges, e.1 < g1.nodes.length)
    (hlen : items.length ≤ g1.nodes.length) :
    ∀ (ms : List NewMorph) (base : Nat) (mes : List (Nat × Nat)),
      g1.nodes.length ≤ base →
      morphEdgesFrom items g1 base ms = some mes →
      ∀ e ∈ mes,
        (e.1 < g1.nodes.length ∧ base ≤ e.2 ∧ e.2 < base + ms.length) ∨
        (base ≤ e.1 ∧ e.1 < base + ms.length ∧ e.2 < items.length) := by
  intro ms
  induction ms with
  | nil =>
    intro base mes _ h e he
    rw [morphEdgesFrom] at h
    cases h
    cases he
  | cons m rest ih =>
    intro base mes hb h e he
    have hL : (m :: rest).length = rest.length + 1 := rfl
    rw [morphEdgesFrom] at h
    split at h
    next => cases h
    next r q v hres =>
      split at h
      next => cases h
      next es' hrest =>
        cases h
        rcases morphResolve_some hres with ⟨hv, hq, fromIdx, hfrom, hrec⟩
        have hr_lt : r < g1.nodes.length := by
          have hmem := List.mem_of_find?_eq_some hrec
          exact hsrc _ (mem_incomingNeighbors.mp hmem)
        have hq_lt : q < items.length := itemIndices_lt hq
        have hv_lt : v < items.length := itemIndices_lt hv
        simp only [List.mem_cons] at he
        rcases he with rfl | rfl | rfl | he
        · left; refine ⟨by (try dsimp only); omega, by (try dsimp only); omega, by (try dsimp only); omega⟩
        · left; refine ⟨by (try dsimp only); omega, by (try dsimp only); omega, by (try dsimp only); omega⟩
        · right; refine ⟨by (try dsimp only); omega, by (try dsimp only); omega, by (try dsimp only); omega⟩
        · rcases ih (base + 1) es' (by omega) hrest e he with ⟨a1, a2, a3⟩ | ⟨a1, a2, a3⟩
          · left; refine ⟨by omega, by omega, by omega⟩
          · right; refine ⟨by omega, by omega, by omega⟩

theorem preMorph_nodes_len (items : List NewItem) (synths : List NewSynthesis) :
    (preMorphGraph items synths).nodes.length = items.length + synths.length := by
  simp [preMorphGraph]

theorem preMorph_src (items : List NewItem) (synths : List NewSynthesis) :
    ∀ e ∈ (preMorphGraph items synths).edges,
      e.1 < (preMorphGraph items synths).nodes.length := by
  intro e he
  have hsh := synthEdgesFrom_shape items (items.map itemNode) (by simp) synths
      items.length e he
  rw [preMorph_nodes_len]
  rcases hsh with ⟨_, _, h3⟩ | ⟨h1, _, _⟩
  · omega
  · simp only [List.length_map] at h1
    omega

theorem buildGraph_closed (items : List NewItem) (synths : List NewSynthesis)
    (morphs : List NewMorph) :
    buildGraph items synths morphs
      = match morphEdgesFrom items (preMorphGraph items synths)
            (items.length + synths.length) morphs with
        | none => none
        | some mes => some ⟨(preMorphGraph items synths).nodes
              ++ List.replicate morphs.length RespiNode.Morph,
            (preMorphGraph items synths).edges ++ mes⟩ := by
  rw [buildGraph_eq]
  have h0 := morphFold_ext items (preMorphGraph items synths).nodes
      (preMorphGraph items synths).edges (preMorph_src items synths)
      (by rw [preMorph_nodes_len]; omega) morphs 0 []
      (by intro e he; cases he)
  simp only [List.replicate_zero, List.append_nil, Nat.add_zero, Nat.zero_add] at h0
  rw [show preMorphGraph items synths
      = RespiGraph.mk (preMorphGraph items synths).nodes (preMorphGraph items synths).edges
      from rfl]
  rw [h0, preMorph_nodes_len]
  cases morphEdgesFrom items
      ⟨(preMorphGraph items synths).nodes, (preMorphGraph items synths).edges⟩
      (items.length + synths.length) morphs with
  | none => rfl
  | some mes => simp

theorem buildGraph_some {items : List NewItem} {synths : List NewSynthesis}
    {morphs : List NewMorph} {g : RespiGraph}
    (h : buildGraph items synths morphs = some g) :
    ∃ mes, morphEdgesFrom items (preMorphGraph items synths)
        (items.length + synths.length) morphs = some mes ∧
      g.nodes = items.map itemNode
          ++ (synths.map synthNode ++ List.replicate morphs.length RespiNode.Morph) ∧
      g.edges = synthEdgesFrom items (items.map itemNode) items.length synths ++ mes := by
  rw [buildGraph_closed] at h
  split at h
  next => cases h
  next mes hmes =>
    cases h
    exact ⟨mes, hmes, by simp [preMorphGraph, List.append_assoc], by simp [preMorphGraph]⟩

/-! ### Node classification in the final graph -/

theorem isItemNamed_itemNode (nm : String) (it : NewItem) :
    isItemNamed nm (itemNode it) = (it.name == nm) := rfl

theorem isItemNamed_synthNode (nm : String) (s : NewSynthesis) :
    isItemNamed nm (synthNode s) = false := rfl

theorem isSynthesisB_synthNode (s : NewSynthesis) : isSynthesisB (synthNode s) = true := rfl

theorem isSynthesisB_itemNode (it : NewItem) : isSynthesisB (itemNode it) = false := rfl

theorem final_nodeAt_item {items : List NewItem} {rest : List RespiNode}
    {es : List (Nat × Nat)} {i : Nat} (h : i < items.length) :
    nodeAt ⟨items.map itemNode ++ rest, es⟩ i = itemNode (items.get ⟨i, h⟩) := by
  unfold nodeAt
  rw [List.getD_append _ _ _ _ (by simpa using h)]
  rw [List.getD_eq_getElem?_getD, List.getElem?_map, List.getElem?_eq_getElem h]
  rfl

theorem final_nodeAt_synth {items : List NewItem} {synths : List NewSynthesis}
    {rest : List RespiNode} {es : List (Nat × Nat)} {i : Nat}
    (h1 : items.length ≤ i) (h2 : i < items.length + synths.length) :
    nodeAt ⟨items.map itemNode ++ (synths.map synthNode ++ rest), es⟩ i
      = synthNode (synths.get ⟨i - items.length, by omega⟩) := by
  unfold nodeAt
  rw [List.getD_append_right _ _ _ _ (by simpa using h1)]
  rw [List.getD_append _ _ _ _ (by simp; omega)]
  rw [List.getD_eq_getElem?_getD, List.getElem?_map]
  rw [List.getElem?_eq_getElem (by simpa using (by omega : i - items.length < synths.length))]
  simp

theorem final_nodeAt_morph {items : List NewItem} {synths : List NewSynthesis}
    {mlen : Nat} {es : List (Nat × Nat)} {i : Nat}
    (h : items.length + synths.length ≤ i) :
    nodeAt ⟨items.map itemNode
        ++ (synths.map synthNode ++ List.replicate mlen RespiNode.Morph), es⟩ i
      = RespiNode.Morph := by
  unfold nodeAt
  rw [List.getD_append_right _ _ _ _ (by simp; omega)]
  rw [List.getD_append_right _ _ _ _ (by simp; omega)]
  exact replicate_getD_morph _ _

theorem final_nodeAt_default {g : RespiGraph} {i : Nat} (h : g.nodes.length ≤ i) :
    nodeAt g i = RespiNode.Morph := by
  unfold nodeAt
  rw [List.getD_eq_getElem?_getD, List.getElem?_eq_none (by omega)]
  rfl

/-! ### Counting the edges contributed into a synthesis node -/

theorem filter_eq_len_nodup {l : List Nat} (hnd : l.Nodup) (i : Nat) :
    (l.filter (fun x => decide (x = i))).length = if i ∈ l then 1 else 0 := by
  induction l with
  | nil => simp
  | cons a rest ih =>
    have hna := (List.nodup_cons.mp hnd).1
    have hnd' := (List.nodup_cons.mp hnd).2
    rw [List.filter_cons]
    by_cases hai : a = i
    · subst hai
      rw [if_pos (by simp)]
      simp only [List.length_cons]
      rw [ih hnd', if_neg hna, if_pos (List.mem_cons_self a rest)]
    · rw [if_neg (by simp [hai])]
      rw [ih hnd']
      by_cases him : i ∈ rest
      · rw [if_pos him, if_pos (List.mem_cons_of_mem _ him)]
      · rw [if_neg him, if_neg (by
          intro hc
          rcases List.mem_cons.mp hc with h | h
          · exact hai h.symm
          · exact him h)]

theorem matchIdxs_nodup (ns : List RespiNode) (ing : String) :
    (matchIdxs ns ing).Nodup :=
  List.Nodup.filter _ (List.nodup_range _)

theorem ingContrib_count (ns : List RespiNode) (k : Nat) (i : Nat)
    (ings : List String) :
    ((ingContrib ns k ings).filter (fun e => decide (e = (i, k)))).length
      = (ings.filter (fun ing => matchesSpec ing (ns.getD i RespiNode.Morph))).length := by
  induction ings with
  | nil => simp [ingContrib]
  | cons ing rest ih =>
    rw [ingContrib, List.flatMap_cons, List.filter_append, List.length_append]
    have hfirst : (((matchIdxs ns ing).map (fun i2 => (i2, k))).filter
          (fun e => decide (e = (i, k)))).length
        = ((matchIdxs ns ing).filter (fun x => decide (x = i))).length := by
      rw [List.filter_map]
      rw [List.length_map]
      congr 1
      apply List.filter_congr
      intro x _
      show decide ((x, k) = (i, k)) = decide (x = i)
      by_cases hx : x = i
      · subst hx; simp
      · simp [hx]
    rw [hfirst, filter_eq_len_nodup (matchIdxs_nodup ns ing) i]
    rw [List.filter_cons]
    have hrw : (rest.flatMap fun ing2 => (matchIdxs ns ing2).map (fun i2 => (i2, k)))
        = ingContrib ns k rest := rfl
    by_cases hm : matchesSpec ing (ns.getD i RespiNode.Morph) = true
    · rw [if_pos hm]
      simp only [List.length_cons]
      rw [if_pos (mem_matchIdxs.mpr ⟨?_, hm⟩)]
      · rw [hrw, ih]
        omega
      · by_contra hlt
        push_neg at hlt
        rw [List.getD_eq_getElem?_getD, List.getElem?_eq_none (by omega)] at hm
        exact absurd hm (by simp [matchesSpec])
    · rw [if_neg hm]
      rw [if_neg (fun hc => hm (mem_matchIdxs.mp hc).2)]
      rw [hrw, ih]
      omega

theorem synthContrib_no_target {items : List NewItem} {ns : List RespiNode} {b : Nat}
    {s : NewSynthesis} (hlen : items.length ≤ ns.length) (hns : ns.length ≤ b)
    {t : Nat} (ht : b < t) :
    ∀ e ∈ synthContrib items ns b s, e.2 ≠ t := by
  intro e he
  rw [synthContrib] at he
  cases hi : itemIndices items s.name with
  | none => rw [hi] at he; cases he
  | some idx =>
    rw [hi] at he
    have hidx : idx < items.length := itemIndices_lt hi
    rcases List.mem_cons.mp he with rfl | h3
    · (try dsimp only); omega
    · rcases List.mem_flatMap.mp h3 with ⟨ing, _, h4⟩
      rcases List.mem_map.mp h4 with ⟨i, _, rfl⟩
      (try dsimp only); omega

theorem filter_len_zero_of_ne {α : Type} {p : α → Bool} {l : List α}
    (h : ∀ e ∈ l, p e = false) : (l.filter p).length = 0 := by
  rw [List.filter_eq_nil_iff.mpr (fun e he => by simp [h e he])]
  rfl

theorem synthEdges_count (items : List NewItem) :
    ∀ (ss : List NewSynthesis) (b : Nat) (j : Nat) (hj : j < ss.length) (i : Nat),
      items.length ≤ b →
      (itemIndices items (ss.get ⟨j, hj⟩).name).isSome = true →
      ((synthEdgesFrom items (items.map itemNode) b ss).filter
          (fun e => decide (e = (i, b + j)))).length
        = ((ss.get ⟨j, hj⟩).ingredients.filter
            (fun ing => matchesSpec ing ((items.map itemNode).getD i RespiNode.Morph))).length := by
  intro ss
  induction ss with
  | nil => intro b j hj; exact absurd hj (by simp)
  | cons s rest ih =>
    intro b j hj i hb hres
    rw [synthEdgesFrom, List.filter_append, List.length_append]
    cases j with
    | zero =>
      have hrest0 : ((synthEdgesFrom items (items.map itemNode) (b + 1) rest).filter
          (fun e => decide (e = (i, b + 0)))).length = 0 := by
        apply filter_len_zero_of_ne
        intro e he
        have hsh := synthEdgesFrom_shape items (items.map itemNode) (by simp) rest (b + 1) e he
        have : e.2 ≠ b := by
          rcases hsh with ⟨h1, _, _⟩ | ⟨_, h2, _⟩
          · simp only [List.length_map] at h1; omega
          · omega
        simp only [decide_eq_false_iff_not]
        intro hc
        rw [hc] at this
        exact this (by omega)
      rw [hrest0]
      rw [List.get] at hres ⊢
      rw [synthContrib]
      cases hi : itemIndices items s.name with
      | none => rw [hi] at hres; simp at hres
      | some idx =>
        rw [List.filter_cons]
        have hidx : idx < items.length := itemIndices_lt hi
        rw [if_neg (by
          simp only [decide_eq_true_eq]
          intro hc
          have h1 : idx = b + 0 := congrArg Prod.snd hc
          omega)]
        rw [show b + 0 = b from rfl]
        rw [ingContrib_count]
        omega
    | succ j' =>
      have hcontrib0 : ((synthContrib items (items.map itemNode) b s).filter
          (fun e => decide (e = (i, b + (j' + 1))))).length = 0 := by
        apply filter_len_zero_of_ne
        intro e he
        have := @synthContrib_no_target items (items.map itemNode) b s (by simp)
            (by simpa using hb) (b + (j' + 1)) (by omega) e he
        simp only [decide_eq_false_iff_not]
        intro hc
        rw [hc] at this
        exact this rfl
      rw [hcontrib0]
      have harith : b + (j' + 1) = (b + 1) + j' := by omega
      rw [harith]
      have hj' : j' < rest.length := by simpa using hj
      have hres' : (itemIndices items (rest.get ⟨j', hj'⟩).name).isSome = true := by
        simpa using hres
      rw [ih (b + 1) j' hj' i (by omega) hres']
      simp

/-! ### The out-edge of a synthesis node, and the edges at a morph node -/

theorem synthEdges_src (items : List NewItem) :
    ∀ (ss : List NewSynthesis) (b j : Nat) (hj : j < ss.length) (idx : Nat),
      items.length ≤ b →
      itemIndices items (ss.get ⟨j, hj⟩).name = some idx →
      (synthEdgesFrom items (items.map itemNode) b ss).filter
          (fun e => decide (e.1 = b + j)) = [(b + j, idx)] := by
  intro ss
  induction ss with
  | nil => intro b j hj; exact absurd hj (by simp)
  | cons s rest ih =>
    intro b j hj idx hb hidx
    rw [synthEdgesFrom, List.filter_append]
    cases j with
    | zero =>
      have hrest0 : (synthEdgesFrom items (items.map itemNode) (b + 1) rest).filter
          (fun e => decide (e.1 = b + 0)) = [] := by
        rw [List.filter_eq_nil_iff]
        intro e he
        have hsh := synthEdgesFrom_shape items (items.map itemNode) (by simp) rest (b + 1) e he
        simp only [decide_eq_true_eq]
        intro hc
        rcases hsh with ⟨_, h2, _⟩ | ⟨h1, _, _⟩
        · omega
        · simp only [List.length_map] at h1; omega
      rw [hrest0, List.append_nil]
      rw [List.get] at hidx
      rw [synthContrib, hidx]
      rw [List.filter_cons]
      rw [if_pos (by simp)]
      have hing0 : (ingContrib (items.map itemNode) b s.ingredients).filter
          (fun e => decide (e.1 = b + 0)) = [] := by
        rw [List.filter_eq_nil_iff]
        intro e he
        rcases List.mem_flatMap.mp he with ⟨ing, _, h4⟩
        rcases List.mem_map.mp h4 with ⟨i, hi2, rfl⟩
        have := (mem_matchIdxs.mp hi2).1
        simp only [List.length_map] at this
        simp only [decide_eq_true_eq]
        try dsimp only
        omega
      rw [hing0]
      simp
    | succ j' =>
      have hcontrib0 : (synthContrib items (items.map itemNode) b s).filter
          (fun e => decide (e.1 = b + (j' + 1))) = [] := by
        rw [List.filter_eq_nil_iff]
        intro e he
        rw [synthContrib] at he
        cases hi : itemIndices items s.name with
        | none => rw [hi] at he; cases he
        | some idx2 =>
          rw [hi] at he
          simp only [decide_eq_true_eq]
          rcases List.mem_cons.mp he with rfl | h3
          · (try dsimp only); omega
          · rcases List.mem_flatMap.mp h3 with ⟨ing, _, h4⟩
            rcases List.mem_map.mp h4 with ⟨i, hi2, rfl⟩
            have := (mem_matchIdxs.mp hi2).1
            simp only [List.length_map] at this
            dsimp only
            omega
      rw [hcontrib0, List.nil_append]
      have harith : b + (j' + 1) = (b + 1) + j' := by omega
      rw [harith]
      have hj' : j' < rest.length := by simpa using hj
      exact ih (b + 1) j' hj' idx (by omega) (by simpa using hidx)

theorem morphEdges_at (items : List NewItem) (g1 : RespiGraph)
    (hsrc : ∀ e ∈ g1.edges, e.1 < g1.nodes.length)
    (hlen : items.length ≤ g1.nodes.length) :
    ∀ (ms : List NewMorph) (base : Nat) (mes : List (Nat × Nat)) (j : Nat)
      (hj : j < ms.length),
      g1.nodes.length ≤ base →
      morphEdgesFrom items g1 base ms = some mes →
      ∃ r q v,
        morphResolve items g1 (ms.get ⟨j, hj⟩) = some (r, q, v) ∧
        mes.filter (fun e => decide (e.2 = base + j)) = [(r, base + j), (q, base + j)] ∧
        mes.filter (fun e => decide (e.1 = base + j)) = [(base + j, v)] := by
  intro ms
  induction ms with
  | nil => intro base mes j hj; exact absurd hj (by simp)
  | cons m rest ih =>
    intro base mes j hj hb h
    rw [morphEdgesFrom] at h
    split at h
    next => cases h
    next r q v hres =>
      split at h
      next => cases h
      next es' hrest =>
        cases h
        rcases morphResolve_some hres with ⟨hv, hq, fromIdx, hfrom, hrec⟩
        have hr_lt : r < g1.nodes.length := by
          have hmem := List.mem_of_find?_eq_some hrec
          exact hsrc _ (mem_incomingNeighbors.mp hmem)
        have hq_lt : q < items.length := itemIndices_lt hq
        have hv_lt : v < items.length := itemIndices_lt hv
        have hshape := morphEdgesFrom_shape items g1 hsrc hlen rest (base + 1) es'
            (by omega) hrest
        cases j with
        | zero =>
          refine ⟨r, q, v, by rw [List.get]; exact hres, ?_, ?_⟩
          · rw [List.filter_cons, List.filter_cons, List.filter_cons]
            rw [if_pos (by simp), if_pos (by simp)]
            rw [if_neg (by simp only [decide_eq_true_eq]; (try dsimp only); omega)]
            have : es'.filter (fun e => decide (e.2 = base + 0)) = [] := by
              rw [List.filter_eq_nil_iff]
              intro e he
              simp only [decide_eq_true_eq]
              rcases hshape e he with ⟨_, h2, _⟩ | ⟨_, _, h3⟩ <;> omega
            rw [this]
            simp
          · rw [List.filter_cons, List.filter_cons, List.filter_cons]
            rw [if_neg (by simp only [decide_eq_true_eq]; (try dsimp only); omega)]
            rw [if_neg (by simp only [decide_eq_true_eq]; (try dsimp only); omega)]
            rw [if_pos (by simp)]
            have : es'.filter (fun e => decide (e.1 = base + 0)) = [] := by
              rw [List.filter_eq_nil_iff]
              intro e he
              simp only [decide_eq_true_eq]
              rcases hshape e he with ⟨h1, _, _⟩ | ⟨h2, _, _⟩ <;> omega
            rw [this]
            simp
        | succ j' =>
          have hj' : j' < rest.length := by simpa using hj
          rcases ih (base + 1) es' j' hj' (by omega) hrest with ⟨r', q', v', hres', hin', hout'⟩
          refine ⟨r', q', v', by simpa using hres', ?_, ?_⟩
          · rw [List.filter_cons, List.filter_cons, List.filter_cons]
            rw [if_neg (by simp only [decide_eq_true_eq]; (try dsimp only); omega)]
            rw [if_neg (by simp only [decide_eq_true_eq]; (try dsimp only); omega)]
            rw [if_neg (by simp only [decide_eq_true_eq]; (try dsimp only); omega)]
            rw [show base + (j' + 1) = (base + 1) + j' from by omega]
            exact hin'
          · rw [List.filter_cons, List.filter_cons, List.filter_cons]
            rw [if_neg (by simp only [decide_eq_true_eq]; (try dsimp only); omega)]
            rw [if_neg (by simp only [decide_eq_true_eq]; (try dsimp only); omega)]
            rw [if_neg (by simp only [decide_eq_true_eq]; (try dsimp only); omega)]
            rw [show base + (j' + 1) = (base + 1) + j' from by omega]
            exact hout'

theorem isSynthesisB_morph : isSynthesisB RespiNode.Morph = false := rfl

theorem isMorphB_itemNode (it : NewItem) : isMorphB (itemNode it) = false := rfl

theorem isMorphB_synthNode (s : NewSynthesis) : isMorphB (synthNode s) = false := rfl

theorem nodeAt_big_eq_pm {items : List NewItem} {synths : List NewSynthesis}
    {mlen : Nat} {es : List (Nat × Nat)} {i : Nat}
    (h : i < items.length + synths.length) :
    nodeAt ⟨items.map itemNode
        ++ (synths.map synthNode ++ List.replicate mlen RespiNode.Morph), es⟩ i
      = nodeAt (preMorphGraph items synths) i := by
  unfold nodeAt preMorphGraph
  dsimp only
  rw [← List.append_assoc]
  rw [List.getD_append _ _ _ _ (by simp; omega)]

/-! ### Concrete datasets used as witness inputs -/

/-- The spec's worked example: Wood (raw), Plank from Wood, Table from Plank. -/
def wItems : List NewItem :=
  [⟨"Wood", false, false, false, false, none, none, none, none, ItemNumber.None⟩,
   ⟨"Plank", false, false, false, false, none, none, none, none, ItemNumber.RecipeNumber 1⟩,
   ⟨"Table", false, false, false, false, none, none, none, none, ItemNumber.RecipeNumber 2⟩]

def wSynths : List NewSynthesis :=
  [⟨"Plank", "1", "craft", some "Wood", none, none, none, none, none, none, none⟩,
   ⟨"Table", "1", "craft", some "Plank", none, none, none, none, none, none, none⟩]

def wGraph : RespiGraph := (buildGraph wItems wSynths []).getD ⟨[], []⟩

/-- A dataset with one morph: MegaBomb = morph of the Bomb recipe plus Cloth. -/
def c3Items : List NewItem :=
  [⟨"Bomb", false, false, false, false, none, none, none, none, ItemNumber.RecipeNumber 1⟩,
   ⟨"Cloth", false, false, false, false, none, none, none, none, ItemNumber.None⟩,
   ⟨"MegaBomb", false, false, false, false, none, none, none, none, ItemNumber.None⟩]

def c3Synths : List NewSynthesis :=
  [⟨"Bomb", "1", "craft", none, none, none, none, none, none, none, none⟩]

def c3Morphs : List NewMorph := [⟨"MegaBomb", "1", "Bomb", "Cloth"⟩]

def c3Graph : RespiGraph := (buildGraph c3Items c3Synths c3Morphs).getD ⟨[], []⟩

/-- Items only; the lone synthesis names an output item "Z" that does not
exist among the items. -/
def c5Items : List NewItem :=
  [⟨"A", false, false, false, false, none, none, none, none, ItemNumber.None⟩]

def c5Synths : List NewSynthesis :=
  [⟨"Z", "1", "craft", some "A", none, none, none, none, none, none, none⟩]

/-! ### C1 -/

/-- C1: in a constructed graph, for every synthesis whose output item name
resolves, the number of edges from node `i` into the synthesis's node
(`items.length + j` for the `j`-th synthesis record) equals the number of
its ingredient specifiers matching node `i`'s name or one of its category
tags: each matching Item gets exactly one edge per specifier regardless of
which of the five fields matched, and a specifier matching no Item adds no
edge (construction succeeded regardless, so no error arises). -/
theorem respi_c1 {items : List NewItem} {synths : List NewSynthesis}
    {morphs : List NewMorph} {g : RespiGraph}
    (hg : buildGraph items synths morphs = some g)
    {j : Nat} (hj : j < synths.length)
    (hres : (itemIndices items (synths.get ⟨j, hj⟩).name).isSome = true) (i : Nat) :
    countEdges g i (items.length + j)
      = ((synths.get ⟨j, hj⟩).ingredients.filter
          (fun ing => matchesSpec ing (nodeAt g i))).length := by
  rcases buildGraph_some hg with ⟨mes, hmes, hnodes, hedges⟩
  obtain ⟨gn, ge⟩ := g
  dsimp only at hnodes hedges
  subst hnodes
  subst hedges
  rw [countEdges]
  dsimp only
  rw [List.filter_append, List.length_append]
  have hmes0 : (mes.filter (fun e => decide (e = (i, items.length + j)))).length = 0 := by
    apply filter_len_zero_of_ne
    intro e he
    have hsh := morphEdgesFrom_shape items (preMorphGraph items synths)
        (preMorph_src items synths) (by rw [preMorph_nodes_len]; omega)
        morphs (items.length + synths.length) mes
        (by rw [preMorph_nodes_len]) hmes e he
    simp only [decide_eq_false_iff_not]
    intro hc
    rw [hc] at hsh
    rcases hsh with ⟨_, h2, _⟩ | ⟨_, _, h3⟩
    · have h2' : items.length + synths.length ≤ items.length + j := h2
      omega
    · have h3' : items.length + j < items.length := h3
      omega
  rw [hmes0, Nat.add_zero]
  rw [synthEdges_count items synths items.length j hj i (Nat.le_refl _) hres]
  congr 1
  apply List.filter_congr
  intro ing _
  by_cases hi : i < items.length
  · have hL : (items.map itemNode).getD i RespiNode.Morph = itemNode (items.get ⟨i, hi⟩) := by
      rw [List.getD_eq_getElem?_getD, List.getElem?_map, List.getElem?_eq_getElem hi]
      rfl
    rw [hL, final_nodeAt_item hi]
  · push_neg at hi
    have hL : (items.map itemNode).getD i RespiNode.Morph = RespiNode.Morph := by
      rw [List.getD_eq_getElem?_getD, List.getElem?_eq_none (by simpa using hi)]
      rfl
    rw [hL, matchesSpec_morph]
    by_cases h2 : i < items.length + synths.length
    · rw [final_nodeAt_synth hi h2, matchesSpec_synthNode]
    · push_neg at h2
      rw [final_nodeAt_morph h2, matchesSpec_morph]

/-- C1 witness: in the Wood/Plank/Table graph, the Wood node (index 0) has
exactly one edge into the Plank synthesis node (index 3). -/
theorem respi_c1_witness : countEdges wGraph 0 3 = 1 := by
  have h := @respi_c1 wItems wSynths [] wGraph (by decide) 0 (by decide) (by decide) 0
  rw [show (3 : Nat) = wItems.length + 0 from rfl, h]
  decide

/-! ### C3 -/

/-- C3 counterexample: a well-formed dataset (unique item names, every
synthesis output resolvable) containing one morph; the Synthesis node
(index 3) gets a second outgoing edge, to the Morph node, so its out-degree
is 2, not 1. -/
theorem respi_c3_counterexample :
    buildGraph c3Items c3Synths c3Morphs = some c3Graph
      ∧ (∀ s ∈ c3Synths, ∃ it ∈ c3Items, it.name = s.name)
      ∧ c3Items.Pairwise (fun a b => a.name ≠ b.name)
      ∧ isSynthesisB (nodeAt c3Graph 3) = true
      ∧ outDegree c3Graph 3 = 2 := by decide

/-- C3 (amended): in a graph constructed from a well-formed dataset with no
morph records, every Synthesis node sits at index `items.length + j` for
its record `j`, has out-degree exactly 1, and its single outgoing edge
targets an Item node named like the record's declared output. -/
theorem respi_c3 {items : List NewItem} {synths : List NewSynthesis} {g : RespiGraph}
    (hg : buildGraph items synths [] = some g)
    (hwf : ∀ s ∈ synths, ∃ it ∈ items, it.name = s.name)
    (huniq : items.Pairwise (fun a b => a.name ≠ b.name)) :
    ∀ k, isSynthesisB (nodeAt g k) = true →
      ∃ j, ∃ hj : j < synths.length, k = items.length + j
        ∧ outDegree g k = 1
        ∧ ∀ v, (k, v) ∈ g.edges →
            isItemNamed (synths.get ⟨j, hj⟩).name (nodeAt g v) = true := by
  rcases buildGraph_some hg with ⟨mes, hmes, hnodes, hedges⟩
  rw [morphEdgesFrom] at hmes
  cases hmes
  obtain ⟨gn, ge⟩ := g
  dsimp only at hnodes hedges
  subst hnodes
  subst hedges
  simp only [List.append_nil]
  intro k hk
  have hk1 : items.length ≤ k := by
    by_contra hlt
    push_neg at hlt
    rw [final_nodeAt_item hlt] at hk
    rw [isSynthesisB_itemNode] at hk
    cases hk
  have hk2 : k < items.length + synths.length := by
    by_contra hge
    push_neg at hge
    rw [final_nodeAt_morph hge] at hk
    rw [isSynthesisB_morph] at hk
    cases hk
  have hj : k - items.length < synths.length := by omega
  have hsmem : synths.get ⟨k - items.length, hj⟩ ∈ synths := List.get_mem _ _ hj
  have hres0 : (itemIndices items (synths.get ⟨k - items.length, hj⟩).name).isSome = true :=
    itemIndices_isSome_iff.mpr (hwf _ hsmem)
  obtain ⟨idx, hidx⟩ := Option.isSome_iff_exists.mp hres0
  have hsrcf := synthEdges_src items synths items.length (k - items.length) hj idx
      (Nat.le_refl _) hidx
  have hkk : items.length + (k - items.length) = k := by omega
  rw [hkk] at hsrcf
  refine ⟨k - items.length, hj, by omega, ?_, ?_⟩
  · rw [outDegree]
    dsimp only
    rw [hsrcf]
    rfl
  · intro v hv
    have hv2 : (k, v) ∈ (synthEdgesFrom items (items.map itemNode) items.length
        synths).filter (fun e => decide (e.1 = k)) :=
      List.mem_filter.mpr ⟨hv, by simp⟩
    rw [hsrcf] at hv2
    have hvidx : v = idx := by
      have := List.mem_singleton.mp hv2
      exact congrArg Prod.snd this
    subst hvidx
    rcases itemIndices_get hidx with ⟨it, hgets, hname⟩
    have hlt : v < items.length := itemIndices_lt hidx
    rw [final_nodeAt_item hlt]
    have hit : items.get ⟨v, hlt⟩ = it := by
      rw [List.getElem?_eq_getElem hlt] at hgets
      cases hgets
      rfl
    rw [hit, isItemNamed_itemNode]
    simp [hname]

/-- C3 witness: in the morph-free Wood/Plank/Table graph, applying the
amended claim to the Synthesis node at index 3 yields out-degree 1. -/
theorem respi_c3_witness : outDegree wGraph 3 = 1 := by
  rcases @respi_c3 wItems wSynths wGraph
      (by decide) (by decide) (by decide) 3 (by decide) with ⟨j, hj, hk, hdeg, _⟩
  exact hdeg

/-! ### C4 -/

/-- C4: in any successfully constructed graph, Morph nodes occupy exactly
the indices `items.length + synths.length + j`; the `j`-th morph node has
in-degree exactly 2 and out-degree exactly 1; its two in-edges come from a
Synthesis node (a producer of the Item node named by the morph's
`from_recipe`) and from an Item node named by the morph's `from_requiring`;
its single out-edge targets an Item node named by the morph's own name.
The filtered edge lists are exact, so no other edge touches a Morph node. -/
theorem respi_c4 {items : List NewItem} {synths : List NewSynthesis}
    {morphs : List NewMorph} {g : RespiGraph}
    (hg : buildGraph items synths morphs = some g) :
    (∀ k, isMorphB (nodeAt g k) = true → k < g.nodes.length →
        items.length + synths.length ≤ k) ∧
    ∀ j, ∀ hj : j < morphs.length,
      inDegree g (items.length + synths.length + j) = 2
      ∧ outDegree g (items.length + synths.length + j) = 1
      ∧ ∃ r q v,
          g.edges.filter (fun e => decide (e.2 = items.length + synths.length + j))
            = [(r, items.length + synths.length + j),
               (q, items.length + synths.length + j)]
          ∧ g.edges.filter (fun e => decide (e.1 = items.length + synths.length + j))
            = [(items.length + synths.length + j, v)]
          ∧ isSynthesisB (nodeAt g r) = true
          ∧ isItemNamed (morphs.get ⟨j, hj⟩).from_requiring (nodeAt g q) = true
          ∧ isItemNamed (morphs.get ⟨j, hj⟩).name (nodeAt g v) = true
          ∧ ∃ f, isItemNamed (morphs.get ⟨j, hj⟩).from_recipe (nodeAt g f) = true
              ∧ (r, f) ∈ g.edges := by
  rcases buildGraph_some hg with ⟨mes, hmes, hnodes, hedges⟩
  obtain ⟨gn, ge⟩ := g
  dsimp only at hnodes hedges
  subst hnodes
  subst hedges
  constructor
  · intro k hk _
    by_contra hlt
    push_neg at hlt
    by_cases h1 : k < items.length
    · rw [final_nodeAt_item h1, isMorphB_itemNode] at hk
      cases hk
    · push_neg at h1
      rw [final_nodeAt_synth h1 (by omega), isMorphB_synthNode] at hk
      cases hk
  · intro j hj
    have hpm_len : (preMorphGraph items synths).nodes.length
        = items.length + synths.length := preMorph_nodes_len items synths
    rcases morphEdges_at items (preMorphGraph items synths) (preMorph_src items synths)
        (by rw [hpm_len]; omega) morphs (items.length + synths.length) mes j hj
        (by rw [hpm_len]) hmes
      with ⟨r, q, v, hres, hin, hout⟩
    rcases morphResolve_some hres with ⟨hv, hq, fromIdx, hfrom, hrec⟩
    have hrA := List.find?_some hrec
    have hr_lt : r < items.length + synths.length := by
      have hmem := List.mem_of_find?_eq_some hrec
      have := preMorph_src items synths _ (mem_incomingNeighbors.mp hmem)
      rw [hpm_len] at this
      exact this
    have hq_lt : q < items.length := itemIndices_lt hq
    have hv_lt : v < items.length := itemIndices_lt hv
    have hfrom_spec := findItem_spec hfrom
    have hfrom_lt : fromIdx < items.length + synths.length := by
      rw [← hpm_len]
      exact hfrom_spec.1
    have hSE_t : (synthEdgesFrom items (items.map itemNode) items.length synths).filter
        (fun e => decide (e.2 = items.length + synths.length + j)) = [] := by
      rw [List.filter_eq_nil_iff]
      intro e he
      have hsh := synthEdgesFrom_shape items (items.map itemNode) (by simp) synths
          items.length e he
      simp only [decide_eq_true_eq]
      intro hc
      rcases hsh with ⟨h1, _, _⟩ | ⟨_, _, h3⟩
      · simp only [List.length_map] at h1; omega
      · omega
    have hSE_s : (synthEdgesFrom items (items.map itemNode) items.length synths).filter
        (fun e => decide (e.1 = items.length + synths.length + j)) = [] := by
      rw [List.filter_eq_nil_iff]
      intro e he
      have hsh := synthEdgesFrom_shape items (items.map itemNode) (by simp) synths
          items.length e he
      simp only [decide_eq_true_eq]
      intro hc
      rcases hsh with ⟨_, _, h3⟩ | ⟨h1, _, _⟩
      · omega
      · simp only [List.length_map] at h1; omega
    have hfull_t : ((synthEdgesFrom items (items.map itemNode) items.length synths)
        ++ mes).filter (fun e => decide (e.2 = items.length + synths.length + j))
        = [(r, items.length + synths.length + j),
           (q, items.length + synths.length + j)] := by
      rw [List.filter_append, hSE_t, hin, List.nil_append]
    have hfull_s : ((synthEdgesFrom items (items.map itemNode) items.length synths)
        ++ mes).filter (fun e => decide (e.1 = items.length + synths.length + j))
        = [(items.length + synths.length + j, v)] := by
      rw [List.filter_append, hSE_s, hout, List.nil_append]
    refine ⟨?_, ?_, r, q, v, hfull_t, hfull_s, ?_, ?_, ?_, fromIdx, ?_, ?_⟩
    · rw [inDegree]
      dsimp only
      rw [hfull_t]
      rfl
    · rw [outDegree]
      dsimp only
      rw [hfull_s]
      rfl
    · rw [nodeAt_big_eq_pm hr_lt]
      simpa using hrA
    · rcases itemIndices_get hq with ⟨it, hgets, hname⟩
      rw [final_nodeAt_item hq_lt]
      have hit : items.get ⟨q, hq_lt⟩ = it := by
        rw [List.getElem?_eq_getElem hq_lt] at hgets
        cases hgets
        rfl
      rw [hit, isItemNamed_itemNode]
      simp [hname]
    · rcases itemIndices_get hv with ⟨it, hgets, hname⟩
      rw [final_nodeAt_item hv_lt]
      have hit : items.get ⟨v, hv_lt⟩ = it := by
        rw [List.getElem?_eq_getElem hv_lt] at hgets
        cases hgets
        rfl
      rw [hit, isItemNamed_itemNode]
      simp [hname]
    · rw [nodeAt_big_eq_pm hfrom_lt]
      exact hfrom_spec.2.1
    · have hmem := List.mem_of_find?_eq_some hrec
      have : (r, fromIdx) ∈ (preMorphGraph items synths).edges :=
        mem_incomingNeighbors.mp hmem
      exact List.mem_append_left _ this

/-- C4 witness: the Morph node (index 4) of the morph dataset has in-degree
2 and out-degree 1. -/
theorem respi_c4_witness : inDegree c3Graph 4 = 2 ∧ outDegree c3Graph 4 = 1 := by
  have h := (@respi_c4 c3Items c3Synths c3Morphs c3Graph (by decide)).2 0 (by decide)
  exact ⟨h.1, h.2.1⟩

/-! ### C5 -/

/-- C5 counterexample: the lone synthesis's output name "Z" does not
resolve, yet construction returns a graph rather than aborting. -/
theorem respi_c5_counterexample :
    itemIndices c5Items "Z" = none
      ∧ (c5Synths.get ⟨0, by decide⟩).name = "Z"
      ∧ buildGraph c5Items c5Synths [] ≠ none := by decide

/-- C5 (amended): a synthesis record whose output item name does not
resolve is silently skipped — its Synthesis node is added with no incident
edges and construction continues; with no morph records the builder can
never abort, whatever the synthesis records reference. -/
theorem respi_c5 :
    (∀ (items : List NewItem) (g : RespiGraph) (s : NewSynthesis),
        itemIndices items s.name = none →
        addSynthesis items g s = ⟨g.nodes ++ [synthNode s], g.edges⟩)
    ∧ ∀ (items : List NewItem) (synths : List NewSynthesis),
        buildGraph items synths [] ≠ none := by
  constructor
  · intro items g s hnone
    obtain ⟨gn, ge⟩ := g
    rw [addSynthesis_eq, synthContrib, hnone]
    simp
  · intro items synths h
    rw [buildGraph_closed, morphEdgesFrom] at h
    exact Option.noConfusion h

/-- C5 witness: the silent-skip equation applied at the concrete
counterexample dataset. -/
theorem respi_c5_witness :
    addSynthesis c5Items ⟨[], []⟩ (c5Synths.get ⟨0, by decide⟩)
      = ⟨[synthNode (c5Synths.get ⟨0, by decide⟩)], []⟩ := by
  have h := respi_c5.1 c5Items ⟨[], []⟩ (c5Synths.get ⟨0, by decide⟩) (by decide)
  simpa using h

/-! ### C6 -/

/-- C6: resolving a morph's base recipe finds the Item node named
`from_recipe` and searches its direct predecessors (incoming neighbours,
in traversal order) for a Synthesis node.  When no Synthesis predecessor
exists the morph step returns `none` — a fatal abort, not a silent skip —
and any such failure propagates through the morph loop, aborting the whole
construction.  When predecessors exist, the first Synthesis found in
traversal order is the one wired into the new Morph node. -/
theorem respi_c6 :
    (∀ (items : List NewItem) (g : RespiGraph) (m : NewMorph) (fromIdx : Nat),
        findItem g m.from_recipe = some fromIdx →
        (incomingNeighbors g fromIdx).find? (fun i => isSynthesisB (nodeAt g i)) = none →
        addMorph items g m = none)
    ∧ (∀ (items : List NewItem) (g : RespiGraph) (m : NewMorph) (fromIdx r : Nat),
        findItem g m.from_recipe = some fromIdx →
        (incomingNeighbors g fromIdx).find? (fun i => isSynthesisB (nodeAt g i)) = some r →
        ∀ g2, addMorph items g m = some g2 →
          g2.nodes = g.nodes ++ [RespiNode.Morph]
          ∧ ∃ q v, g2.edges = g.edges ++ [(r, g.nodes.length), (q, g.nodes.length),
              (g.nodes.length, v)])
    ∧ (∀ (items : List NewItem) (g : RespiGraph) (ms1 : List NewMorph) (m : NewMorph)
        (ms2 : List NewMorph) (g1 : RespiGraph),
        morphFold items g ms1 = some g1 → addMorph items g1 m = none →
        morphFold items g (ms1 ++ m :: ms2) = none) := by
  refine ⟨?_, ?_, ?_⟩
  · intro items g m fromIdx h1 h2
    unfold addMorph
    cases itemIndices items m.name with
    | none => rfl
    | some a =>
      cases itemIndices items m.from_requiring with
      | none => rfl
      | some b =>
        rw [h1]
        dsimp only
        rw [h2]
  · intro items g m fromIdx r h1 h2 g2 hadd
    unfold addMorph at hadd
    split at hadd
    next => cases hadd
    next resIdx hres =>
      split at hadd
      next => cases hadd
      next reqIdx hreq =>
        split at hadd
        next => cases hadd
        next fromIdx2 hfrom2 =>
          cases hfrom2.symm.trans h1
          split at hadd
          next => cases hadd
          next r2 hrec2 =>
            cases hrec2.symm.trans h2
            cases hadd
            refine ⟨rfl, reqIdx, resIdx, ?_⟩
            simp [addNode, addEdge, List.append_assoc]
  · intro items g ms1
    induction ms1 generalizing g with
    | nil =>
      intro m ms2 g1 h0 h1
      rw [morphFold] at h0
      cases h0
      rw [List.nil_append, morphFold]
      rw [h1]
    | cons m0 rest ih =>
      intro m ms2 g1 h0 h1
      rw [morphFold] at h0
      rw [List.cons_append, morphFold]
      cases ha : addMorph items g m0 with
      | none => rw [ha] at h0
      | some gx =>
        rw [ha] at h0
        exact ih gx m ms2 g1 h0 h1

/-- C6 witness: with no syntheses at all, the item named by `from_recipe`
has no Synthesis predecessor and the morph step aborts. -/
theorem respi_c6_witness :
    addMorph c3Items ⟨c3Items.map itemNode, []⟩ (c3Morphs.get ⟨0, by decide⟩) = none := by
  exact respi_c6.1 c3Items ⟨c3Items.map itemNode, []⟩ _ 0 (by decide) (by decide)

/-! ### C7 -/

/-- C7: item-name resolution is a total function: `findItem` returns the
first Item node whose name equals the query exactly, and `none` exactly
when no Item node carries that name — it never fails otherwise; in a query
cycle the "not found" outcome arises exactly when a name fails to resolve,
and the distinct "no path" outcome exactly when both names resolve but the
search finds no path. -/
theorem respi_c7 (g : RespiGraph) (sn gn : String) :
    (∀ i, findItem g sn = some i →
        i < g.nodes.length ∧ isItemNamed sn (nodeAt g i) = true)
    ∧ (findItem g sn = none
        ↔ ∀ i, i < g.nodes.length → isItemNamed sn (nodeAt g i) = false)
    ∧ (runQuery g sn gn = QueryResult.notFound
        ↔ (findItem g sn = none ∨ findItem g gn = none))
    ∧ (runQuery g sn gn = QueryResult.noPath
        ↔ ∃ s t, findItem g sn = some s ∧ findItem g gn = some t
            ∧ astarModel g s t = none) := by
  refine ⟨?_, ⟨?_, ?_⟩, ?_, ?_⟩
  · intro i hi
    rcases findItem_spec hi with ⟨h1, h2, _⟩
    exact ⟨h1, h2⟩
  · intro h i hi
    exact findItem_eq_none h i hi
  · intro hall
    cases hf : findItem g sn with
    | none => rfl
    | some i =>
      rcases findItem_spec hf with ⟨h1, h2, _⟩
      rw [hall i h1] at h2
      cases h2
  · unfold runQuery
    cases h1 : findItem g sn with
    | none => simp
    | some s =>
      cases h2 : findItem g gn with
      | none => simp
      | some t =>
        dsimp only
        cases h3 : astarModel g s t with
        | none => simp
        | some p => simp
  · unfold runQuery
    cases h1 : findItem g sn with
    | none => simp
    | some s =>
      cases h2 : findItem g gn with
      | none => simp
      | some t =>
        dsimp only
        cases h3 : astarModel g s t with
        | none => simp [h3]
        | some p => simp [h3]

/-- C7 witness: a query whose start name matches no Item reports the
"not found" outcome. -/
theorem respi_c7_witness :
    runQuery wGraph "Nothing" "Table" = QueryResult.notFound :=
  (respi_c7 wGraph "Nothing" "Table").2.2.1.mpr (Or.inl (by decide))

/-! ### C9 -/

/-- C9 counterexample: with no arguments the dataset path is missing, yet
no usage help is printed and construction is still attempted (with the
empty path); with one unrecognized argument help is printed but
construction is again attempted — never the claimed print-and-abort. -/
theorem respi_c9_counterexample :
    mainModel [] = (some "", false)
      ∧ ¬((mainModel []).2 = true ∧ (mainModel []).1 = none)
      ∧ (mainModel ["-x"]).2 = true
      ∧ ¬((mainModel ["-x"]).2 = true ∧ (mainModel ["-x"]).1 = none) := by decide

/-- C9 (amended): argument scanning never aborts — `Respi::init` is always
invoked afterwards with whatever path was last supplied (the empty string
when none was given); an unrecognized argument, or `-i`/`--items` with
nothing following, prints the usage help and scanning continues; an empty
argument list prints nothing. -/
theorem respi_c9 :
    (∀ args : List String, (mainModel args).1.isSome = true)
    ∧ (∀ (a : String) (rest : List String) (path : String) (helped : Bool),
        a ≠ "respi" → a ≠ "-i" → a ≠ "--items" →
        parseArgsLoop (a :: rest) path helped = parseArgsLoop rest path true)
    ∧ (∀ (path : String) (helped : Bool), parseArgsLoop ["-i"] path helped = (path, true))
    ∧ (∀ (path : String) (helped : Bool),
        parseArgsLoop ["--items"] path helped = (path, true))
    ∧ mainModel [] = (some "", false) := by
  refine ⟨fun args => rfl, ?_, fun p h => rfl, fun p h => rfl, rfl⟩
  intro a rest path helped h1 h2 h3
  rw [parseArgsLoop.eq_def]
  dsimp only
  rw [if_neg (by simp [h1]), if_neg (by simp [h2, h3])]

/-- C9 witness: the continue-after-help equation applied to the
unrecognized argument "-x". -/
theorem respi_c9_witness :
    parseArgsLoop ["-x"] "" false = parseArgsLoop [] "" true :=
  respi_c9.2.1 "-x" [] "" false (by decide) (by decide) (by decide)

/-! ### C10 -/

theorem parseRow_names {row : List String} {it : NewItem} {ss : List NewSynthesis}
    {ms : List NewMorph} (h : parseRow row = some (it, ss, ms)) :
    (∀ s ∈ ss, s.name = it.name) ∧ (∀ m ∈ ms, m.name = it.name) := by
  unfold parseRow at h
  dsimp only at h
  repeat' split at h
  all_goals try cases h
  all_goals constructor
  all_goals intro x hx
  all_goals try simp only [List.mem_append, List.mem_singleton, List.not_mem_nil, or_false,
    false_or] at hx
  all_goals try (rcases hx with rfl | rfl)
  all_goals try subst hx
  all_goals try rfl

/-- C10: for every record triple a successful `parse_csv` returns, each
synthesis record's name and each morph record's name is also the name of
some returned item record (a recipe row also emits its own item record);
hence the builder's output-item lookup for a synthesis always succeeds (the
silent-skip branch is unreachable on parsed input) and a morph's result
lookup never fails — only `from_requiring` or `from_recipe` can fail. -/
theorem respi_c10 {rows : List (List String)} {items : List NewItem}
    {synths : List NewSynthesis} {morphs : List NewMorph}
    (h : parseCsv rows = some (items, synths, morphs)) :
    (∀ s ∈ synths, ∃ it ∈ items, it.name = s.name)
    ∧ (∀ m ∈ morphs, ∃ it ∈ items, it.name = m.name)
    ∧ (∀ s ∈ synths, (itemIndices items s.name).isSome = true)
    ∧ (∀ m ∈ morphs, (itemIndices items m.name).isSome = true) := by
  have main : (∀ s ∈ synths, ∃ it ∈ items, it.name = s.name)
      ∧ (∀ m ∈ morphs, ∃ it ∈ items, it.name = m.name) := by
    induction rows generalizing items synths morphs with
    | nil =>
      rw [parseCsv] at h
      cases h
      exact ⟨(by intro s hs; cases hs), (by intro m hm; cases hm)⟩
    | cons row rest ih =>
      rw [parseCsv] at h
      split at h
      next => cases h
      next it ss ms hrow =>
        split at h
        next => cases h
        next its sss mss hrest =>
          cases h
          rcases parseRow_names hrow with ⟨hss, hms⟩
          rcases ih hrest with ⟨ih1, ih2⟩
          constructor
          · intro s hs
            rcases List.mem_append.mp hs with h1 | h1
            · exact ⟨it, List.mem_cons_self it its, (hss s h1).symm⟩
            · rcases ih1 s h1 with ⟨it2, hm, hn⟩
              exact ⟨it2, List.mem_cons_of_mem _ hm, hn⟩
          · intro m hm
            rcases List.mem_append.mp hm with h1 | h1
            · exact ⟨it, List.mem_cons_self it its, (hms m h1).symm⟩
            · rcases ih2 m h1 with ⟨it2, hm2, hn⟩
              exact ⟨it2, List.mem_cons_of_mem _ hm2, hn⟩
  refine ⟨main.1, main.2,
    fun s hs => itemIndices_isSome_iff.mpr (main.1 s hs),
    fun m hm => itemIndices_isSome_iff.mpr (main.2 m hm)⟩

/-- Two rows: a raw material "W" and a recipe row "P" (recipe number 1)
using "W" as its first ingredient specifier. -/
def c10Rows : List (List String) :=
  [["W", "", "", "", "", "", "", "", "", "", "",
    "", "", "", "", "", "", "", "", "", "", "", "", "", ""],
   ["P", "", "", "", "", "", "", "", "", "", "1",
    "ch", "ty", "W", "", "", "", "", "", "", "", "", "", "", ""]]

def c10Parsed : List NewItem × List NewSynthesis × List NewMorph :=
  (parseCsv c10Rows).getD ([], [], [])

/-- C10 witness: on the two-row dataset, the parsed synthesis "P" resolves
against the parsed items. -/
theorem respi_c10_witness : (itemIndices c10Parsed.1 "P").isSome = true := by
  have h := (@respi_c10 c10Rows c10Parsed.1 c10Parsed.2.1 c10Parsed.2.2 (by decide)).2.2.1
  exact h (c10Parsed.2.1.get ⟨0, by decide⟩) (List.get_mem _ _ (by decide))

/-! ### Walks, balls and the shortest-path model -/

theorem mem_succs {g : RespiGraph} {u a : Nat} : a ∈ succs g u ↔ (u, a) ∈ g.edges := by
  unfold succs
  constructor
  · intro h
    rcases List.mem_map.mp h with ⟨e, he, rfl⟩
    rcases List.mem_filter.mp he with ⟨he1, he2⟩
    have h1 : e.1 = u := by simpa using he2
    have : e = (u, e.2) := by rw [← h1]
    rw [← this]
    exact he1
  · intro h
    exact List.mem_map.mpr ⟨(u, a), List.mem_filter.mpr ⟨h, by simp⟩, rfl⟩

theorem mem_stepBall {g : RespiGraph} {S : List Nat} {a : Nat} :
    a ∈ stepBall g S ↔ a ∈ S ∨ ∃ u ∈ S, (u, a) ∈ g.edges := by
  unfold stepBall
  rw [List.mem_append, List.mem_flatMap]
  constructor
  · rintro (h | ⟨u, hu, ha⟩)
    · exact Or.inl h
    · exact Or.inr ⟨u, hu, mem_succs.mp ha⟩
  · rintro (h | ⟨u, hu, ha⟩)
    · exact Or.inl h
    · exact Or.inr ⟨u, hu, mem_succs.mpr ha⟩

theorem ball_mono_succ {g : RespiGraph} {s : Nat} {n : Nat} {x : Nat}
    (h : x ∈ ball g s n) : x ∈ ball g s (n + 1) :=
  mem_stepBall.mpr (Or.inl h)

theorem ball_mono {g : RespiGraph} {s : Nat} {n m : Nat} (hnm : n ≤ m) {x : Nat}
    (h : x ∈ ball g s n) : x ∈ ball g s m := by
  induction m with
  | zero => have : n = 0 := by omega
            subst this
            exact h
  | succ m ih =>
    rcases Nat.eq_or_lt_of_le hnm with rfl | hlt
    · exact h
    · exact ball_mono_succ (ih (by omega))

theorem walk_zero {g : RespiGraph} {s t : Nat} (w : Walk g s t 0) : s = t := by
  cases w
  rfl

theorem walk_snoc {g : RespiGraph} {s u n : Nat} (w : Walk g s u n) {t : Nat}
    (h : (u, t) ∈ g.edges) : Walk g s t (n + 1) := by
  induction w with
  | nil _ => exact Walk.cons h (Walk.nil _)
  | cons e _ ih => exact Walk.cons e (ih h)

theorem walk_succ_iff {g : RespiGraph} {s t : Nat} {n : Nat} :
    Walk g s t (n + 1) ↔ ∃ u, Walk g s u n ∧ (u, t) ∈ g.edges := by
  constructor
  · intro w
    induction n generalizing s with
    | zero =>
      cases w with
      | cons e w2 =>
        have := walk_zero w2
        subst this
        exact ⟨s, Walk.nil s, e⟩
    | succ n ih =>
      cases w with
      | cons e w2 =>
        rcases ih w2 with ⟨u, wu, ue⟩
        exact ⟨u, Walk.cons e wu, ue⟩
  · rintro ⟨u, wu, ue⟩
    exact walk_snoc wu ue

theorem walk_to_ball {g : RespiGraph} {s t k : Nat} (w : Walk g s t k) :
    t ∈ ball g s k := by
  induction k generalizing t with
  | zero =>
    have := walk_zero w
    subst this
    exact List.mem_singleton.mpr rfl
  | succ k ih =>
    rcases walk_succ_iff.mp w with ⟨u, wu, ue⟩
    exact mem_stepBall.mpr (Or.inr ⟨u, ih wu, ue⟩)

theorem ball_to_walk {g : RespiGraph} {s : Nat} :
    ∀ {n t : Nat}, t ∈ ball g s n → ∃ k, k ≤ n ∧ Walk g s t k := by
  intro n
  induction n with
  | zero =>
    intro t ht
    rcases List.mem_singleton.mp ht with rfl
    exact ⟨0, Nat.le_refl _, Walk.nil t⟩
  | succ n ih =>
    intro t ht
    rcases mem_stepBall.mp ht with h | ⟨u, hu, he⟩
    · rcases ih h with ⟨k, hk, w⟩
      exact ⟨k, by omega, w⟩
    · rcases ih hu with ⟨k, hk, w⟩
      exact ⟨k + 1, by omega, walk_snoc w he⟩

theorem ball_subset_universe {g : RespiGraph} {s : Nat} :
    ∀ {n x : Nat}, x ∈ ball g s n → x ∈ s :: g.edges.map (fun e => e.2) := by
  intro n
  induction n with
  | zero =>
    intro x hx
    rcases List.mem_singleton.mp hx with rfl
    exact List.mem_cons_self _ _
  | succ n ih =>
    intro x hx
    rcases mem_stepBall.mp hx with h | ⟨u, _, he⟩
    · exact ih h
    · exact List.mem_cons_of_mem _ (List.mem_map.mpr ⟨(u, x), he, rfl⟩)

theorem stepBall_congr {g : RespiGraph} {S S2 : List Nat}
    (h : ∀ x, x ∈ S ↔ x ∈ S2) (x : Nat) :
    x ∈ stepBall g S ↔ x ∈ stepBall g S2 := by
  rw [mem_stepBall, mem_stepBall]
  constructor
  · rintro (hx | ⟨u, hu, he⟩)
    · exact Or.inl ((h x).mp hx)
    · exact Or.inr ⟨u, (h u).mp hu, he⟩
  · rintro (hx | ⟨u, hu, he⟩)
    · exact Or.inl ((h x).mpr hx)
    · exact Or.inr ⟨u, (h u).mpr hu, he⟩

theorem ball_card_growth (g : RespiGraph) (s : Nat) :
    ∀ n : Nat, (∀ x, x ∈ ball g s n ↔ x ∈ ball g s (n + 1))
      ∨ n + 1 ≤ ((ball g s (n + 1)).toFinset).card := by
  intro n
  induction n with
  | zero =>
    right
    have hmem : s ∈ (ball g s 1).toFinset :=
      List.mem_toFinset.mpr (ball_mono_succ (List.mem_singleton.mpr rfl))
    exact Finset.card_pos.mpr ⟨s, hmem⟩
  | succ n ih =>
    rcases ih with heq | hcard
    · left
      intro x
      constructor
      · exact ball_mono_succ
      · intro hx
        exact (stepBall_congr heq x).mpr hx
    · by_cases hstab : ∀ x, x ∈ ball g s (n + 1) ↔ x ∈ ball g s (n + 2)
      · left
        exact hstab
      · right
        push_neg at hstab
        rcases hstab with ⟨x, hx⟩
        have hx2 : x ∈ ball g s (n + 1 + 1) ∧ x ∉ ball g s (n + 1) := by
          rcases hx with ⟨h1, h2⟩ | ⟨h1, h2⟩
          · exact absurd (ball_mono_succ h1) h2
          · exact ⟨h2, h1⟩
        have hsub : (ball g s (n + 1)).toFinset ⊆ (ball g s (n + 1 + 1)).toFinset := by
          intro y hy
          exact List.mem_toFinset.mpr (ball_mono_succ (List.mem_toFinset.mp hy))
        have hss : (ball g s (n + 1)).toFinset ⊂ (ball g s (n + 1 + 1)).toFinset :=
          (Finset.ssubset_iff_of_subset hsub).mpr
            ⟨x, List.mem_toFinset.mpr hx2.1, fun hc => hx2.2 (List.mem_toFinset.mp hc)⟩
        have := Finset.card_lt_card hss
        omega

theorem ball_stab_at_bound (g : RespiGraph) (s : Nat) :
    ∀ x, x ∈ ball g s (reachBoundK g s) ↔ x ∈ ball g s (reachBoundK g s + 1) := by
  rcases ball_card_growth g s (reachBoundK g s) with h | h
  · exact h
  · exfalso
    have hsub : (ball g s (reachBoundK g s + 1)).toFinset
        ⊆ (s :: g.edges.map (fun e => e.2)).toFinset := by
      intro x hx
      exact List.mem_toFinset.mpr (ball_subset_universe (List.mem_toFinset.mp hx))
    have hcard := Finset.card_le_card hsub
    rw [show (s :: g.edges.map (fun e => e.2)).toFinset.card = reachBoundK g s from rfl] at hcard
    omega

theorem ball_stab_forward {g : RespiGraph} {s n : Nat}
    (h : ∀ x, x ∈ ball g s n ↔ x ∈ ball g s (n + 1)) :
    ∀ m, n ≤ m → ∀ x, x ∈ ball g s m ↔ x ∈ ball g s n := by
  intro m
  induction m with
  | zero =>
    intro hm x
    have : n = 0 := by omega
    subst this
    rfl
  | succ m ih =>
    intro hm x
    rcases Nat.eq_or_lt_of_le hm with heq | hlt
    · subst heq
      rfl
    · have hnm : n ≤ m := by omega
      have hcongr := @stepBall_congr g (ball g s m) (ball g s n) (fun y => ih hnm y)
      constructor
      · intro hx
        exact (h x).mpr ((hcongr x).mp hx)
      · intro hx
        exact (hcongr x).mpr ((h x).mp hx)

theorem walk_mem_ball_bound {g : RespiGraph} {s t k : Nat} (w : Walk g s t k) :
    t ∈ ball g s (reachBoundK g s) := by
  have hb := walk_to_ball w
  by_cases hk : k ≤ reachBoundK g s
  · exact ball_mono hk hb
  · exact (ball_stab_forward (ball_stab_at_bound g s) k (by omega) t).mp hb

theorem distSearch_some {g : RespiGraph} {s t n : Nat} (h : distSearch g s t = some n) :
    t ∈ ball g s n ∧ ∀ m, m < n → t ∉ ball g s m := by
  rcases firstSuch_some h with ⟨h1, _, _, h4⟩
  refine ⟨by simpa using h1, fun m hm hmem => ?_⟩
  have := h4 m (Nat.zero_le _) hm
  simp only [decide_eq_false_iff_not] at this
  exact this hmem

theorem distSearch_none {g : RespiGraph} {s t : Nat} (h : distSearch g s t = none) :
    ∀ k, ¬ Walk g s t k := by
  intro k w
  have hmem := walk_mem_ball_bound w
  have hfalse := firstSuch_eq_none h (reachBoundK g s) (Nat.zero_le _) (by omega)
  simp only [decide_eq_false_iff_not] at hfalse
  exact hfalse hmem

theorem extractPath_spec {g : RespiGraph} {s : Nat} :
    ∀ {n t : Nat}, t ∈ ball g s n → (∀ m, m < n → t ∉ ball g s m) →
      ∃ p, extractPath g s n t = some p ∧ p.head? = some s ∧ p.getLast? = some t
        ∧ List.Chain' (fun u v => (u, v) ∈ g.edges) p ∧ p.length = n + 1
        ∧ ∀ k, ∀ hk : k < p.length, p.get ⟨k, hk⟩ ∈ ball g s k := by
  intro n
  induction n with
  | zero =>
    intro t ht _
    rcases List.mem_singleton.mp ht with rfl
    refine ⟨[t], rfl, rfl, rfl, List.chain'_singleton t, rfl, ?_⟩
    intro k hk
    have : k = 0 := by
      simp only [List.length_singleton] at hk
      omega
    subst this
    exact List.mem_singleton.mpr rfl
  | succ n ih =>
    intro t ht hmin
    have htn : t ∉ ball g s n := hmin n (by omega)
    rcases mem_stepBall.mp ht with h | hexists
    · exact absurd h htn
    · have hfind : ∃ u, pickPred g (ball g s n) t = some u := by
        rcases hexists with ⟨u0, hu0, he0⟩
        cases hp : pickPred g (ball g s n) t with
        | some u => exact ⟨u, rfl⟩
        | none =>
          exfalso
          have hnone := List.find?_eq_none.mp hp u0 hu0
          simp only [decide_eq_true_eq] at hnone
          exact hnone he0
      rcases hfind with ⟨u, hu⟩
      have humem : u ∈ ball g s n := List.mem_of_find?_eq_some hu
      have huedge : (u, t) ∈ g.edges := by
        have := List.find?_some hu
        simpa using this
      have humin : ∀ m, m < n → u ∉ ball g s m := by
        intro m hm hmem
        exact hmin (m + 1) (by omega) (mem_stepBall.mpr (Or.inr ⟨u, hmem, huedge⟩))
      rcases ih humem humin with ⟨q, hq, hqh, hql, hqc, hqlen, hqball⟩
      have hqne : q ≠ [] := by
        intro hc
        rw [hc] at hqh
        cases hqh
      refine ⟨q ++ [t], ?_, ?_, List.getLast?_concat q, ?_, ?_, ?_⟩
      · rw [extractPath, hu]
        dsimp only
        rw [hq]
        rfl
      · cases q with
        | nil => cases hqh
        | cons a q2 => simpa using hqh
      · rw [List.chain'_append]
        refine ⟨hqc, List.chain'_singleton t, ?_⟩
        intro x hx y hy
        rw [hql] at hx
        have hx2 : u = x := by simpa using hx
        have hy2 : t = y := by simpa using hy
        rw [← hx2, ← hy2]
        exact huedge
      · simp [hqlen]
      · intro k hk
        by_cases hklt : k < q.length
        · have hget : (q ++ [t]).get ⟨k, hk⟩ = q.get ⟨k, hklt⟩ := by
            rw [List.get_append k hklt]
          rw [hget]
          exact hqball k hklt
        · have hkeq : k = q.length := by
            simp only [List.length_append, List.length_singleton] at hk
            omega
          have hget : (q ++ [t]).get ⟨k, hk⟩ = t := by
            subst hkeq
            rw [List.get_append_right' (Nat.le_refl _)]
            simp
          rw [hget]
          rw [show k = n + 1 from by omega]
          exact ht

theorem pathOk_to_walk {g : RespiGraph} :
    ∀ {p : List Nat} {s t : Nat}, pathOk g p s t → Walk g s t (p.length - 1) := by
  intro p
  induction p with
  | nil =>
    intro s t h
    rcases h with ⟨h1, _, _⟩
    cases h1
  | cons a rest ih =>
    intro s t h
    rcases h with ⟨h1, h2, h3⟩
    have ha : a = s := by simpa using h1
    subst ha
    cases rest with
    | nil =>
      have : a = t := by simpa using h2
      subst this
      exact Walk.nil a
    | cons b rest2 =>
      rw [List.chain'_cons] at h3
      have hw := @ih b t
        ⟨rfl, by rw [← List.getLast?_cons_cons]; exact h2, h3.2⟩
      exact Walk.cons h3.1 hw

theorem walk_to_pathOk {g : RespiGraph} {s t n : Nat} (w : Walk g s t n) :
    ∃ p, pathOk g p s t ∧ p.length = n + 1 := by
  induction w with
  | nil u => exact ⟨[u], ⟨rfl, rfl, List.chain'_singleton u⟩, rfl⟩
  | @cons u v w n e w2 ih =>
    rcases ih with ⟨p, ⟨hp1, hp2, hp3⟩, hlen⟩
    refine ⟨u :: p, ⟨rfl, ?_, ?_⟩, by simp [hlen]⟩
    · cases p with
      | nil => cases hp1
      | cons x xs =>
        rw [List.getLast?_cons_cons]
        exact hp2
    · rw [List.chain'_cons']
      refine ⟨?_, hp3⟩
      intro y hy
      cases p with
      | nil => cases hp1
      | cons x xs =>
        have hx : x = v := by simpa using hp1
        have hy2 : x = y := by simpa using hy
        rw [← hy2, hx]
        exact e

theorem astarModel_some_spec {g : RespiGraph} {s t : Nat} {p : List Nat}
    (h : astarModel g s t = some p) :
    pathOk g p s t ∧ (∀ q, pathOk g q s t → p.length ≤ q.length)
    ∧ (∀ k, ∀ hk : k < p.length, p.get ⟨k, hk⟩ ∈ ball g s k)
    ∧ (∀ m, m < p.length - 1 → t ∉ ball g s m) := by
  unfold astarModel at h
  split at h
  next => cases h
  next n hdist =>
    rcases distSearch_some hdist with ⟨hball, hmin⟩
    rcases extractPath_spec hball hmin with ⟨p2, hp2, hh, hl, hc, hlen, hb⟩
    rw [hp2] at h
    cases h
    refine ⟨⟨hh, hl, hc⟩, ?_, hb, ?_⟩
    · intro q hq
      have hw := pathOk_to_walk hq
      have hqne : q ≠ [] := by
        intro hc2
        rw [hc2] at hq
        cases hq.1
      have hqpos : 1 ≤ q.length := by
        cases q with
        | nil => exact absurd rfl hqne
        | cons _ _ => simp
      have hge : n ≤ q.length - 1 := by
        by_contra hlt
        push_neg at hlt
        exact hmin (q.length - 1) hlt (walk_to_ball hw)
      omega
    · intro m hm
      rw [hlen] at hm
      exact hmin m (by omega)

theorem astarModel_none_spec {g : RespiGraph} {s t : Nat}
    (h : astarModel g s t = none) : ∀ q, ¬ pathOk g q s t := by
  intro q hq
  unfold astarModel at h
  split at h
  next hdist => exact distSearch_none hdist _ (pathOk_to_walk hq)
  next n hdist =>
    rcases distSearch_some hdist with ⟨hball, hmin⟩
    rcases extractPath_spec hball hmin with ⟨p2, hp2, _⟩
    rw [hp2] at h
    cases h

theorem astarModel_self (g : RespiGraph) (s : Nat) : astarModel g s s = some [s] := by
  have h0 : distSearch g s s = some 0 := by
    show firstSuch (fun n => decide (s ∈ ball g s n)) (reachBoundK g s + 1) 0 = some 0
    rw [firstSuch]
    simp [ball]
  unfold astarModel
  rw [h0]
  rfl

/-! ### C2 -/

/-- C2: the modelled path search (petgraph astar with unit costs and zero
heuristic) follows edges in their stored direction only: a returned node
sequence is a directed path from start to goal whose length — and hence
edge count — is minimal among all directed paths; when start and goal are
the same node the returned path is the single-node sequence; and the
`none` result occurs exactly on inputs with no directed path at all. -/
theorem respi_c2 (g : RespiGraph) (s t : Nat) :
    (∀ p, astarModel g s t = some p →
        pathOk g p s t ∧ ∀ q, pathOk g q s t → p.length ≤ q.length)
    ∧ (s = t → astarModel g s t = some [s])
    ∧ (astarModel g s t = none → ∀ q, ¬ pathOk g q s t) := by
  refine ⟨?_, ?_, ?_⟩
  · intro p hp
    rcases astarModel_some_spec hp with ⟨h1, h2, _, _⟩
    exact ⟨h1, h2⟩
  · rintro rfl
    exact astarModel_self g s
  · exact astarModel_none_spec

/-- C2 witness: in the Wood/Plank/Table graph the search returns the
five-node chain from Wood to Table, and it is a valid directed path. -/
theorem respi_c2_witness :
    astarModel wGraph 0 2 = some [0, 3, 1, 4, 2]
      ∧ pathOk wGraph [0, 3, 1, 4, 2] 0 2 :=
  ⟨by decide, ((respi_c2 wGraph 0 2).1 [0, 3, 1, 4, 2] (by decide)).1⟩

/-! ### C8: rendering -/

theorem isItemNamed_morphNode (nm : String) : isItemNamed nm RespiNode.Morph = false := rfl

theorem isItemNamed_eq {nm : String} {n : RespiNode} (h : isItemNamed nm n = true) :
    ∃ f i li w c1 c2 c3 c4 inum, n = RespiNode.Item nm f i li w c1 c2 c3 c4 inum := by
  cases n with
  | Item name f i li w c1 c2 c3 c4 inum =>
    have : name = nm := by simpa [isItemNamed] using h
    subst this
    exact ⟨f, i, li, w, c1, c2, c3, c4, inum, rfl⟩
  | Synthesis _ _ _ _ _ _ => cases h
  | Morph => cases h

theorem synthEdgesFrom_target_mem (items : List NewItem) (ns : List RespiNode) :
    ∀ (ss : List NewSynthesis) (b : Nat), ∀ e ∈ synthEdgesFrom items ns b ss,
      (∃ nm, itemIndices items nm = some e.2) ∨ b ≤ e.2 := by
  intro ss
  induction ss with
  | nil => intro b e he; rw [synthEdgesFrom] at he; cases he
  | cons s rest ih =>
    intro b e he
    rw [synthEdgesFrom] at he
    rcases List.mem_append.mp he with h1 | h2
    · rw [synthContrib] at h1
      cases hi : itemIndices items s.name with
      | none => rw [hi] at h1; cases h1
      | some idx =>
        rw [hi] at h1
        rcases List.mem_cons.mp h1 with rfl | h3
        · exact Or.inl ⟨s.name, hi⟩
        · rcases List.mem_flatMap.mp h3 with ⟨ing, _, h4⟩
          rcases List.mem_map.mp h4 with ⟨i, _, rfl⟩
          exact Or.inr (Nat.le_refl _)
    · rcases ih (b + 1) e h2 with h | h
      · exact Or.inl h
      · exact Or.inr (by omega)

theorem morphEdgesFrom_target_mem (items : List NewItem) (g1 : RespiGraph) :
    ∀ (ms : List NewMorph) (base : Nat) (mes : List (Nat × Nat)),
      morphEdgesFrom items g1 base ms = some mes →
      ∀ e ∈ mes, (∃ nm, itemIndices items nm = some e.2) ∨ base ≤ e.2 := by
  intro ms
  induction ms with
  | nil =>
    intro base mes h e he
    rw [morphEdgesFrom] at h
    cases h
    cases he
  | cons m rest ih =>
    intro base mes h e he
    rw [morphEdgesFrom] at h
    split at h
    next => cases h
    next r q v hres =>
      split at h
      next => cases h
      next es' hrest =>
        cases h
        rcases morphResolve_some hres with ⟨hv, _, _, _, _⟩
        simp only [List.mem_cons] at he
        rcases he with rfl | rfl | rfl | he
        · exact Or.inr (Nat.le_refl _)
        · exact Or.inr (Nat.le_refl _)
        · exact Or.inl ⟨m.name, hv⟩
        · rcases ih (base + 1) es' hrest e he with h | h
          · exact Or.inl h
          · exact Or.inr (by omega)

/-- In a constructed graph, every edge whose target is an `Item` node named
`X` targets exactly the node the `item_indices` map binds `X` to (all edges
into Item nodes are wired through that map). -/
theorem edge_item_target {items : List NewItem} {synths : List NewSynthesis}
    {morphs : List NewMorph} {g : RespiGraph}
    (hg : buildGraph items synths morphs = some g) :
    ∀ u v X, (u, v) ∈ g.edges → isItemNamed X (nodeAt g v) = true →
      itemIndices items X = some v := by
  rcases buildGraph_some hg with ⟨mes, hmes, hnodes, hedges⟩
  obtain ⟨gn, ge⟩ := g
  dsimp only at hnodes hedges
  subst hnodes
  subst hedges
  intro u v X he hnamed
  have hprov : (∃ nm, itemIndices items nm = some v) ∨ items.length ≤ v := by
    rcases List.mem_append.mp he with hSE | hME
    · have := synthEdgesFrom_target_mem items (items.map itemNode) synths items.length
          (u, v) hSE
      rcases this with h | h
      · exact Or.inl h
      · exact Or.inr h
    · have := morphEdgesFrom_target_mem items (preMorphGraph items synths) morphs
          (items.length + synths.length) mes hmes (u, v) hME
      rcases this with h | h
      · exact Or.inl h
      · exact Or.inr (by omega)
  rcases hprov with ⟨nm, hnm⟩ | hge
  · have hlt : v < items.length := itemIndices_lt hnm
    rcases itemIndices_get hnm with ⟨it, hgets, hname⟩
    rw [final_nodeAt_item hlt] at hnamed
    have hit : items.get ⟨v, hlt⟩ = it := by
      rw [List.getElem?_eq_getElem hlt] at hgets
      cases hgets
      rfl
    rw [hit, isItemNamed_itemNode] at hnamed
    have : it.name = X := by simpa using hnamed
    rw [← hname, this] at hnm
    exact hnm
  · exfalso
    by_cases h2 : v < items.length + synths.length
    · rw [final_nodeAt_synth hge h2, isItemNamed_synthNode] at hnamed
      cases hnamed
    · push_neg at h2
      rw [final_nodeAt_morph h2, isItemNamed_morphNode] at hnamed
      cases hnamed

theorem renderPath_join {g : RespiGraph} {t : Nat} {gname : String}
    (hgoal : isItemNamed gname (nodeAt g t) = true) :
    ∀ p : List Nat, p ≠ [] →
      (∀ x ∈ p.dropLast, isItemNamed gname (nodeAt g x) = false) →
      p.getLast? = some t →
      renderPath g t p = joinSep (p.map (fun i => label (nodeAt g i))) := by
  rcases isItemNamed_eq hgoal with ⟨f0, i0, l0, w0, c10, c20, c30, c40, inum0, hgeq⟩
  intro p
  induction p with
  | nil => intro h; exact absurd rfl h
  | cons a rest ih =>
    intro _ hdrop hlast
    cases rest with
    | nil =>
      have hat : a = t := by simpa using hlast
      show renderNode g t a ++ renderPath g t [] = joinSep [label (nodeAt g a)]
      have h1 : renderNode g t a = label (nodeAt g a) ++ "" := by
        rw [renderNode, hat, hgeq]
        dsimp only
        rw [if_neg (by simp)]
      have h2 : renderPath g t [] = "" := rfl
      have h3 : joinSep [label (nodeAt g a)] = label (nodeAt g a) := rfl
      rw [h1, h2, h3, String.append_empty, String.append_empty]
    | cons b rest2 =>
      have hdropa : isItemNamed gname (nodeAt g a) = false := by
        apply hdrop
        rw [List.dropLast_cons₂]
        exact List.mem_cons_self _ _
      have hrest := ih (by simp)
        (fun x hx => hdrop x (by
          rw [List.dropLast_cons₂]
          exact List.mem_cons_of_mem _ hx))
        (by rw [← List.getLast?_cons_cons]; exact hlast)
      have hnode : renderNode g t a = label (nodeAt g a) ++ " -> " := by
        cases hna : nodeAt g a with
        | Item name f i li w c1 c2 c3 c4 inum =>
          have hne : name ≠ gname := by
            rw [hna] at hdropa
            simpa [isItemNamed] using hdropa
          rw [renderNode, hna, hgeq]
          dsimp only
          rw [if_pos hne]
        | Synthesis a1 a2 a3 a4 a5 a6 =>
          rw [renderNode, hna]
        | Morph =>
          rw [renderNode, hna]
      show renderNode g t a ++ renderPath g t (b :: rest2) = _
      rw [hnode, hrest]
      simp only [List.map_cons]
      rfl

/-- C8: for every path a query on a constructed graph returns, the rendered
output is exactly the node labels joined by " -> " between consecutive
nodes, with no trailing separator after the final node (the only node whose
separator the printing rule suppresses is the goal node, which is always
last in a returned path). -/
theorem respi_c8 {items : List NewItem} {synths : List NewSynthesis}
    {morphs : List NewMorph} {g : RespiGraph} {sn gn : String} {s t : Nat}
    {p : List Nat}
    (hg : buildGraph items synths morphs = some g)
    (hs : findItem g sn = some s) (ht : findItem g gn = some t)
    (hp : astarModel g s t = some p) :
    renderPath g t p = joinSep (p.map (fun i => label (nodeAt g i))) := by
  rcases astarModel_some_spec hp with ⟨⟨hh, hl, hc⟩, _, hballs, hminlv⟩
  have hin := edge_item_target hg
  have htnamed : isItemNamed gn (nodeAt g t) = true := (findItem_spec ht).2.1
  have hsnamed : isItemNamed sn (nodeAt g s) = true := (findItem_spec hs).2.1
  have hpne : p ≠ [] := by
    intro hc2
    rw [hc2] at hh
    cases hh
  have hmid : ∀ x ∈ p.dropLast, isItemNamed gn (nodeAt g x) = false := by
    intro x hx
    rcases List.mem_iff_get.mp hx with ⟨⟨k, hk⟩, hget⟩
    have hk2 : k < p.length - 1 := by
      have hlen := List.length_dropLast p
      omega
    have hkp : k < p.length := by omega
    have hgx : p.get ⟨k, hkp⟩ = x := by
      rw [← hget, List.get_dropLast]
    by_contra hcon
    rw [Bool.not_eq_false] at hcon
    rcases Nat.eq_zero_or_pos k with rfl | hkpos
    · have hx0 : p.get ⟨0, hkp⟩ = s := by
        cases p with
        | nil => exact absurd rfl hpne
        | cons a rest =>
          have : a = s := by simpa using hh
          simpa using this
      have hxs : x = s := by rw [← hgx, hx0]
      rcases isItemNamed_eq hsnamed with ⟨f, i, li, w, c1, c2, c3, c4, inum, heq⟩
      rw [hxs, heq] at hcon
      have hsngn : sn = gn := by
        have : (sn == gn) = true := by simpa [isItemNamed] using hcon
        simpa using this
      rw [← hsngn] at ht
      have hst : s = t := Option.some.inj (hs.symm.trans ht)
      rw [← hst] at hp
      have hps : p = [s] := (Option.some.inj ((astarModel_self g s).symm.trans hp)).symm
      rw [hps] at hk2
      simp at hk2
    · obtain ⟨j, rfl⟩ : ∃ j, k = j + 1 := ⟨k - 1, by omega⟩
      have hedge : (p.get ⟨j, by omega⟩, p.get ⟨j + 1, by omega⟩) ∈ g.edges :=
        List.chain'_iff_get.mp hc j (by omega)
      rw [hgx] at hedge
      have hxidx : itemIndices items gn = some x := hin _ x gn hedge hcon
      have hwalk := pathOk_to_walk (⟨hh, hl, hc⟩ : pathOk g p s t)
      obtain ⟨n2, hn2⟩ : ∃ n2, p.length - 1 = n2 + 1 := ⟨p.length - 2, by omega⟩
      rw [hn2] at hwalk
      rcases walk_succ_iff.mp hwalk with ⟨u2, _, hedge_t⟩
      have htidx : itemIndices items gn = some t := hin u2 t gn hedge_t htnamed
      have hxt : x = t := by
        have := hxidx.symm.trans htidx
        cases this
        rfl
      have hxball : x ∈ ball g s (j + 1) := by
        rw [← hgx]
        exact hballs (j + 1) hkp
      rw [hxt] at hxball
      exact hminlv (j + 1) hk2 hxball
  exact renderPath_join htnamed p hpne hmid hl

/-- C8 witness: the rendered Wood-to-Table path is exactly the labels
joined by the separator. -/
theorem respi_c8_witness :
    renderPath wGraph 2 [0, 3, 1, 4, 2]
        = joinSep ([0, 3, 1, 4, 2].map (fun i => label (nodeAt wGraph i)))
      ∧ renderPath wGraph 2 [0, 3, 1, 4, 2]
        = "Wood -> Synthesis -> Plank -> Synthesis -> Table" :=
  ⟨@respi_c8 wItems wSynths [] wGraph "Wood" "Table" 0 2 [0, 3, 1, 4, 2]
      (by decide) (by decide) (by decide) (by decide),
   by decide⟩

end Respi
